import Mathlib

/-!
# Exchange sink dispatcher (`SinkBuffer`)

A shallow embedding of `be/src/exec/pipeline/exchange/sink_buffer.h`.

* The three `std::unordered_map`s are association lists; `operator[]` is
  `Assoc.lookup`/`Assoc.set` (find the entry, or create it).  The list order plays
  the part of the unspecified iteration order.
* `size_t`, `int64_t` and `std::atomic<int32_t>` are `Nat`/`Int` with explicit
  wrap-around.
* A request holds its `PTransmitChunkParams` through a `shared_ptr`: the model keeps
  the objects in a heap, by address, and a request holds the address.  Requests with
  the same address share one object, and what `_send_rpc` writes through one of them
  (`set_eos`, `set_sequence`) is what the others read.
* The background thread, the operator threads and the transport callbacks are
  interleaved at the granularity of `Action`: one call of `add_request`, one body
  of the scan loop of `process`, one completion callback, or the destructor
  setting `_is_finished`.
-/

namespace StarRocks

/-! ## Machine integers -/

/-- Pre-decrement of a `size_t`: `--x` adds `2^64 - 1` modulo `2^64`. -/
def size_dec (x : Nat) : Nat := (18446744073709551615 + x) % 18446744073709551616

/-- Addition of two `size_t`, modulo `2^64`. -/
def size_add (x y : Nat) : Nat := (x + y) % 18446744073709551616

/-- Two-complement wrap of an integer into the range of `int32_t`. -/
def wrap32 (x : Int) : Int := (x + 2147483648) % 4294967296 - 2147483648

/-- Two-complement wrap of an integer into the range of `int64_t`. -/
def wrap64 (x : Int) : Int :=
  (x + 9223372036854775808) % 18446744073709551616 - 9223372036854775808

/-! ## Association lists standing for `std::unordered_map` -/

namespace Assoc

/-- The value stored under `k` (`find`), if any. -/
def lookup {K V : Type} [DecidableEq K] (k : K) : List (K × V) → Option V
  | [] => none
  | (k', v) :: m => if k' = k then some v else lookup k m

/-- Store `v` under `k`: overwrite the entry of `k`, or create it. -/
def set {K V : Type} [DecidableEq K] (k : K) (v : V) : List (K × V) → List (K × V)
  | [] => [(k, v)]
  | (k', v') :: m => if k' = k then (k', v) :: m else (k', v') :: set k v m

/-- The keys, in iteration order. -/
def keys {K V : Type} (m : List (K × V)) : List K := m.map Prod.fst

end Assoc

/-! ## Data model -/

/-- The `TUniqueId` of a fragment instance. -/
structure TUniqueId where
  hi : Int
  lo : Int
deriving DecidableEq, Repr

/-- One serialized chunk of a `PTransmitChunkParams`. -/
structure ChunkPB where
  data : List Nat
deriving DecidableEq, Repr

/-- The fields of `PTransmitChunkParams` that the sink buffer reads or writes. -/
structure PTransmitChunkParams where
  finst_id : Option TUniqueId
  eos : Bool
  chunks : List ChunkPB
  sequence : Option Int
deriving DecidableEq, Repr

/-- Result of `chunks_size()`. -/
def PTransmitChunkParams.chunks_size (p : PTransmitChunkParams) : Nat := p.chunks.length

/-- Result of `release_finst_id()`: the field is handed back to the caller. -/
def PTransmitChunkParams.release_finst_id (p : PTransmitChunkParams) : PTransmitChunkParams :=
  { p with finst_id := none }

/-- A default-constructed `PTransmitChunkParams`. -/
def PTransmitChunkParams.blank : PTransmitChunkParams :=
  { finst_id := none, eos := false, chunks := [], sequence := none }

/-- A pending request.  `params` is the address of the `PTransmitChunkParams` object
the `shared_ptr` points to, so that requests with the same address share one object
(the methods dereference it unchecked; a null `params` is outside the model);
`brpc_stub` is the address of the stub. -/
structure TransmitChunkInfo where
  fragment_instance_id : TUniqueId
  brpc_stub : Nat
  params : Nat
  attachment : List Nat
deriving DecidableEq, Repr

/-- A destination of the plan fragment; only its instance id is read. -/
structure TPlanFragmentDestination where
  fragment_instance_id : TUniqueId
deriving DecidableEq, Repr

/-- Modelled from the spec: `Status` (common/status.h) is not among the sources; the
spec only tells a status that is ok from one that is not, and keeps the error text. -/
structure Status where
  is_ok : Bool
  message : String
deriving DecidableEq, Repr

/-- The reply of `transmit_chunk`. -/
structure PTransmitChunkResult where
  status : Status
deriving DecidableEq, Repr

/-- Modelled from the spec: `CallBackClosure` (util/callback_closure.h) is not among
the sources.  The spec describes a reference-counted completion handle, one per
destination, whose in-flight state is true between a submission and its completion.
The count `refs` is what `ref()` raises and what the completion releases: the
constructor of the sink buffer takes one reference for itself, every submission one
more. -/
structure CallBackClosure where
  refs : Nat
deriving DecidableEq, Repr

/-- Modelled from the spec: `ref()` of the completion handle takes one more reference. -/
def CallBackClosure.ref (c : CallBackClosure) : CallBackClosure := { refs := c.refs + 1 }

/-- Modelled from the spec: the completion releases the reference of the submission. -/
def CallBackClosure.unref (c : CallBackClosure) : CallBackClosure := { refs := c.refs - 1 }

/-- Modelled from the spec: an RPC is in flight while a reference beyond the sink
buffer's own one is held. -/
def CallBackClosure.has_in_flight_rpc (c : CallBackClosure) : Bool := decide (1 < c.refs)

/-- Number of submissions on this handle that have not completed. -/
def CallBackClosure.outstanding (c : CallBackClosure) : Nat := c.refs - 1

/-- What `transmit_chunk` receives: the controller settings, the destination the
request was addressed to and, as `params`, the request message as it stands when the
call is made. -/
structure TransmitCall where
  fragment_instance_id : TUniqueId
  brpc_stub : Nat
  timeout_ms : Nat
  request_attachment : List Nat
  params : PTransmitChunkParams
deriving DecidableEq, Repr

/-- The member variables of `SinkBuffer` (the thread, mutex, condition variable and
memory tracker carry no data of the model) and, as `heap`, the memory its methods reach
through `request.params`: the `PTransmitChunkParams` objects by address.  They belong
to the callers, but `add_request`, `process` and `_send_rpc` write to them. -/
structure SinkBuffer where
  _num_sinkers_per_dest_instance : List (TUniqueId × Nat)
  _request_seq : Int
  _in_flight_rpc_num : Int
  _is_cancelled : Bool
  _closures : List (TUniqueId × CallBackClosure)
  _buffers : List (TUniqueId × List TransmitChunkInfo)
  _is_finished : Bool
  heap : List (Nat × PTransmitChunkParams)
deriving DecidableEq, Repr

namespace SinkBuffer

/-! ## Construction -/

/-- The member initialisers: empty maps, counters at zero, flags cleared. -/
def empty : SinkBuffer :=
  { _num_sinkers_per_dest_instance := []
    _request_seq := 0
    _in_flight_rpc_num := 0
    _is_cancelled := false
    _closures := []
    _buffers := []
    _is_finished := false
    heap := [] }

/-- Body of the constructor loop for one destination. -/
def add_destination (num_sinkers : Nat) (s : SinkBuffer) (dest : TPlanFragmentDestination) :
    SinkBuffer :=
  let dest_instance_id := dest.fragment_instance_id
  match Assoc.lookup dest_instance_id s._num_sinkers_per_dest_instance with
  | some n =>
    { s with _num_sinkers_per_dest_instance :=
        Assoc.set dest_instance_id (size_add n num_sinkers) s._num_sinkers_per_dest_instance }
  | none =>
    { s with
      _num_sinkers_per_dest_instance :=
        Assoc.set dest_instance_id num_sinkers s._num_sinkers_per_dest_instance
      _closures := Assoc.set dest_instance_id (CallBackClosure.ref { refs := 0 }) s._closures
      _buffers := Assoc.set dest_instance_id [] s._buffers }

/-- The constructor `SinkBuffer(mem_tracker, destinations, num_sinkers)`. -/
def new (destinations : List TPlanFragmentDestination) (num_sinkers : Nat) : SinkBuffer :=
  destinations.foldl (add_destination num_sinkers) empty

/-! ## Completion handlers -/

/-- The handler installed by `addFailedHandler`. -/
def failed_handler (s : SinkBuffer) : SinkBuffer :=
  { s with _in_flight_rpc_num := wrap32 (s._in_flight_rpc_num - 1), _is_cancelled := true }

/-- The handler installed by `addSuccessHandler`. -/
def success_handler (s : SinkBuffer) (result : PTransmitChunkResult) : SinkBuffer :=
  let s1 := { s with _in_flight_rpc_num := wrap32 (s._in_flight_rpc_num - 1) }
  let status := result.status
  if !status.is_ok then { s1 with _is_cancelled := true } else s1

/-! ## The objects behind the requests -/

/-- The object at an address.  A `shared_ptr` keeps its object alive, so every address
a request holds is the address of an object: an address the heap does not list holds a
default-constructed one. -/
def deref (s : SinkBuffer) (ptr : Nat) : PTransmitChunkParams :=
  (Assoc.lookup ptr s.heap).getD PTransmitChunkParams.blank

/-- The object `request.params` points to. -/
def params_of (s : SinkBuffer) (request : TransmitChunkInfo) : PTransmitChunkParams :=
  s.deref request.params

/-- A caller creates, or rewrites, the object at an address. -/
def make_params (s : SinkBuffer) (ptr : Nat) (params : PTransmitChunkParams) : SinkBuffer :=
  { s with heap := Assoc.set ptr params s.heap }

/-! ## Public contract -/

/-- The method `add_request`. -/
def add_request (s : SinkBuffer) (request : TransmitChunkInfo) : SinkBuffer :=
  if s._is_finished then
    { s with heap := Assoc.set request.params (s.params_of request).release_finst_id s.heap }
  else
    let q := (Assoc.lookup request.fragment_instance_id s._buffers).getD []
    { s with _buffers := Assoc.set request.fragment_instance_id (q ++ [request]) s._buffers }

/-- The method `is_full`, with `config::pipeline_io_buffer_size` as parameter. -/
def is_full (pipeline_io_buffer_size : Nat) (s : SinkBuffer) : Bool :=
  s._buffers.any (fun e => decide (pipeline_io_buffer_size < e.2.length))

/-- The method `is_finished`. -/
def is_finished (s : SinkBuffer) : Bool :=
  if s._is_cancelled then true
  else if 0 < s._in_flight_rpc_num then false
  else if s._closures.any (fun e => e.2.has_in_flight_rpc) then false
  else if s._buffers.any (fun e => !e.2.isEmpty) then false
  else true

/-! ## Submission -/

/-- The second half of `_send_rpc`, from `set_sequence` on: stamp the sequence
number, take a reference on the closure of the destination, count the RPC and call
`transmit_chunk`.  `none` stands for the dereference of the null pointer that
`_closures[...]` creates for an id without closure.  The `DCHECK` is compiled out. -/
def stamp_and_transmit (s : SinkBuffer) (request : TransmitChunkInfo) :
    Option (SinkBuffer × Option TransmitCall) :=
  let params := { s.params_of request with sequence := some s._request_seq }
  let s1 := { s with
    heap := Assoc.set request.params params s.heap
    _request_seq := wrap64 (s._request_seq + 1) }
  match Assoc.lookup request.fragment_instance_id s1._closures with
  | none => none
  | some closure =>
    some ({ s1 with
              _closures := Assoc.set request.fragment_instance_id closure.ref s1._closures
              _in_flight_rpc_num := wrap32 (s1._in_flight_rpc_num + 1) },
          some { fragment_instance_id := request.fragment_instance_id
                 brpc_stub := request.brpc_stub
                 timeout_ms := 500
                 request_attachment := request.attachment
                 params := params })

/-- The method `_send_rpc`: the new state and the call made to the transport, if any. -/
def _send_rpc (s : SinkBuffer) (request : TransmitChunkInfo) :
    Option (SinkBuffer × Option TransmitCall) :=
  if (s.params_of request).eos then
    let n := size_dec
      ((Assoc.lookup request.fragment_instance_id s._num_sinkers_per_dest_instance).getD 0)
    let s1 := { s with
      _num_sinkers_per_dest_instance :=
        Assoc.set request.fragment_instance_id n s._num_sinkers_per_dest_instance }
    if 0 < n then
      if (s.params_of request).chunks_size = 0 then
        some (s1, none)
      else
        stamp_and_transmit
          { s1 with
            heap := Assoc.set request.params { s.params_of request with eos := false } s.heap }
          request
    else
      stamp_and_transmit s1 request
  else
    stamp_and_transmit s request

/-- Body of the scan loop of `process` for the buffer stored under `key`: when the
buffer is not empty and the closure of its front request has no RPC in flight, the
front request is sent and popped, and the `finst_id` of its object is released.  The
result names the request picked up, with the call made for it. -/
def process_buffer (s : SinkBuffer) (key : TUniqueId) :
    Option (SinkBuffer × Option (TransmitChunkInfo × Option TransmitCall)) :=
  match Assoc.lookup key s._buffers with
  | none => some (s, none)
  | some [] => some (s, none)
  | some (front :: rest) =>
    match Assoc.lookup front.fragment_instance_id s._closures with
    | none => none
    | some closure =>
      if !closure.has_in_flight_rpc then
        match _send_rpc s front with
        | none => none
        | some (s1, call) =>
          some ({ s1 with
                  _buffers := Assoc.set key rest s1._buffers
                  heap := Assoc.set front.params (s1.params_of front).release_finst_id s1.heap },
                some (front, call))
      else
        some (s, none)

/-- Modelled from the spec: `CallBackClosure::Run` is not among the sources.  The
transport completes a submission exactly once: the handler runs, then the in-flight
slot of the destination is freed.  `none` when no RPC of `dest` is in flight. -/
def run_closure (s : SinkBuffer) (dest : TUniqueId) (handler : SinkBuffer → SinkBuffer) :
    Option SinkBuffer :=
  match Assoc.lookup dest s._closures with
  | none => none
  | some closure =>
    if closure.has_in_flight_rpc then
      let s1 := handler s
      some { s1 with _closures := Assoc.set dest closure.unref s1._closures }
    else none

/-- The first statement of the destructor. -/
def shutdown (s : SinkBuffer) : SinkBuffer := { s with _is_finished := true }

/-- The method `is_cancelled`. -/
def is_cancelled (s : SinkBuffer) : Bool := s._is_cancelled

end SinkBuffer

/-! ## The dispatcher as a transition system -/

/-- One atomic action of one of the threads that share a sink buffer; with
`make_params` an operator creates, or rewrites, the object of a request. -/
inductive Action where
  | make_params (ptr : Nat) (params : PTransmitChunkParams)
  | add_request (request : TransmitChunkInfo)
  | process_buffer (key : TUniqueId)
  | rpc_success (dest : TUniqueId) (result : PTransmitChunkResult)
  | rpc_failed (dest : TUniqueId)
  | shutdown
deriving DecidableEq, Repr

/-- What an action leaves in the history of the dispatcher. -/
inductive Event where
  | enqueued (request : TransmitChunkInfo)
  | discarded (request : TransmitChunkInfo)
  | picked (request : TransmitChunkInfo) (call : Option TransmitCall)
deriving DecidableEq, Repr

namespace SinkBuffer

/-- One action; `none` when the action cannot happen in `s` (a completion without
RPC in flight) or when the code dereferences a null closure. -/
def step (s : SinkBuffer) : Action → Option (SinkBuffer × List Event)
  | .make_params ptr params => some (s.make_params ptr params, [])
  | .add_request request =>
    some (s.add_request request,
      [if s._is_finished then Event.discarded request else Event.enqueued request])
  | .process_buffer key =>
    match s.process_buffer key with
    | none => none
    | some (s1, none) => some (s1, [])
    | some (s1, some (request, call)) => some (s1, [Event.picked request call])
  | .rpc_success dest result =>
    (s.run_closure dest (fun t => t.success_handler result)).map (fun s1 => (s1, []))
  | .rpc_failed dest => (s.run_closure dest failed_handler).map (fun s1 => (s1, []))
  | .shutdown => some (s.shutdown, [])

/-- A sequence of actions from `s`, appending to the history `log`. -/
def run (s : SinkBuffer) (log : List Event) : List Action → Option (SinkBuffer × List Event)
  | [] => some (s, log)
  | a :: acts =>
    match s.step a with
    | none => none
    | some (s1, events) => run s1 (log ++ events) acts

/-- The events of one body of the scan loop. -/
def scan_events : Option (TransmitChunkInfo × Option TransmitCall) → List Event
  | none => []
  | some (request, call) => [Event.picked request call]

/-- The scan loop of `process` over the buffers stored under `keys`, in this order:
the final state, the flag `find_any` and the events. -/
def process_scan_from (s : SinkBuffer) :
    List TUniqueId → Option (SinkBuffer × Bool × List Event)
  | [] => some (s, false, [])
  | key :: keys =>
    match s.process_buffer key with
    | none => none
    | some (s1, picked) =>
      match process_scan_from s1 keys with
      | none => none
      | some (s2, find_any, events) =>
        some (s2, picked.isSome || find_any, scan_events picked ++ events)

/-- One pass of the scan loop of `process` over all buffers. -/
def process_scan (s : SinkBuffer) : Option (SinkBuffer × Bool × List Event) :=
  s.process_scan_from (Assoc.keys s._buffers)

/-- A sequence of requests handed to `_send_rpc` one after the other: the final state
and, request by request, the call made to the transport. -/
def send_all (s : SinkBuffer) : List TransmitChunkInfo →
    Option (SinkBuffer × List (Option TransmitCall))
  | [] => some (s, [])
  | request :: requests =>
    match s._send_rpc request with
    | none => none
    | some (s1, call) =>
      match send_all s1 requests with
      | none => none
      | some (s2, calls) => some (s2, call :: calls)

end SinkBuffer

/-! ## Reading a history -/

/-- The calls made to the transport, in the order they were made. -/
def transmitted (log : List Event) : List TransmitCall :=
  log.filterMap fun e =>
    match e with
    | Event.picked _ (some call) => some call
    | _ => none

/-- The requests enqueued for destination `d`, in the order of the calls of `add_request`. -/
def enqueued_for (d : TUniqueId) (log : List Event) : List TransmitChunkInfo :=
  log.filterMap fun e =>
    match e with
    | Event.enqueued request => if request.fragment_instance_id = d then some request else none
    | _ => none

/-- The requests of destination `d` picked up by the scan loop, each with the call made
for it, in the order they were picked up. -/
def picked_for (d : TUniqueId) (log : List Event) :
    List (TransmitChunkInfo × Option TransmitCall) :=
  log.filterMap fun e =>
    match e with
    | Event.picked request call =>
      if request.fragment_instance_id = d then some (request, call) else none
    | _ => none

/-- The number of requests for destination `d` whose object has the end-of-stream
flag in state `s`. -/
def count_eos (s : SinkBuffer) (d : TUniqueId) (requests : List TransmitChunkInfo) : Nat :=
  (requests.filter
    (fun r => decide (r.fragment_instance_id = d) && (s.params_of r).eos)).length

/-- The end-of-stream flags as `_send_rpc` reads them: for each request of the
sequence, the flag of its object at the moment the request is processed. -/
def eos_as_read (s : SinkBuffer) : List TransmitChunkInfo → List Bool
  | [] => []
  | request :: requests =>
    (s.params_of request).eos ::
      (match s._send_rpc request with
       | none => []
       | some (s1, _) => eos_as_read s1 requests)

/-- The number of requests for destination `d` among `requests` whose flag in `flags`,
at the same position, is set. -/
def eos_count (d : TUniqueId) (requests : List TransmitChunkInfo) (flags : List Bool) : Nat :=
  ((requests.zip flags).filter
    (fun e => decide (e.1.fragment_instance_id = d) && e.2)).length

/-- A call to the transport for destination `d` that carries the end-of-stream flag. -/
def is_eos_call (d : TUniqueId) : Option TransmitCall → Bool
  | none => false
  | some call => decide (call.fragment_instance_id = d) && call.params.eos

/-! ## Invariants of the reachable states -/

/-- Every closure holds the sink buffer's own reference and at most one more. -/
def closures_ok (s : SinkBuffer) : Prop :=
  ∀ e ∈ s._closures, 1 ≤ e.2.refs ∧ e.2.refs ≤ 2

/-- The number of submissions that have not completed, over all destinations. -/
def total_outstanding (s : SinkBuffer) : Nat :=
  (s._closures.map (fun e => e.2.outstanding)).sum

/-- The counter `_in_flight_rpc_num` is the number of submissions that have not completed. -/
def counter_ok (s : SinkBuffer) : Prop :=
  s._in_flight_rpc_num = (total_outstanding s : Int)

/-- Every queued request sits in the buffer of its own destination. -/
def buffers_keyed (s : SinkBuffer) : Prop :=
  ∀ e ∈ s._buffers, ∀ r ∈ e.2, r.fragment_instance_id = e.1

/-- For every destination, what was enqueued is what was picked up followed by what is
still queued, in this order. -/
def fifo_ok (s : SinkBuffer) (log : List Event) : Prop :=
  ∀ d, enqueued_for d log =
    (picked_for d log).map Prod.fst ++ (Assoc.lookup d s._buffers).getD []

/-- The sequence counter is the number of calls made, and the `i`-th call made carries
the number `i`. -/
def seq_ok (s : SinkBuffer) (log : List Event) : Prop :=
  s._request_seq = ((transmitted log).length : Int) ∧
  ∀ (i : Nat) (call : TransmitCall),
    (transmitted log)[i]? = some call → call.params.sequence = some (i : Int)

/-- The sinkers of destination `d` still expected to end their stream, as
`_num_sinkers_per_dest_instance[d]` reads it (zero for an id without entry). -/
def sinkers (s : SinkBuffer) (d : TUniqueId) : Nat :=
  (Assoc.lookup d s._num_sinkers_per_dest_instance).getD 0

/-- Destination `d` has a closure. -/
def known (s : SinkBuffer) (d : TUniqueId) : Prop :=
  ∃ c, Assoc.lookup d s._closures = some c

/-- A state in which nothing has happened yet: no queued request, no RPC in flight,
counters at zero, flags cleared. -/
def fresh (s : SinkBuffer) : Prop :=
  (∀ e ∈ s._closures, e.2.refs = 1) ∧ (∀ e ∈ s._buffers, e.2 = []) ∧
  s._request_seq = 0 ∧ s._in_flight_rpc_num = 0 ∧ s._is_cancelled = false ∧
  s._is_finished = false

/-- The calls of a list that go to destination `d`. -/
def calls_to (d : TUniqueId) (calls : List TransmitCall) : List TransmitCall :=
  calls.filter (fun c => decide (c.fragment_instance_id = d))

/-- The calls of a list that go to another destination than `d`. -/
def calls_elsewhere (d : TUniqueId) (calls : List TransmitCall) : List TransmitCall :=
  calls.filter (fun c => !decide (c.fragment_instance_id = d))

/-- The condition under which the spec has `is_finished()` return true: cancelled, or
the in-flight count is zero, no closure has an RPC in flight and every queue is empty. -/
def is_finished_spec (s : SinkBuffer) : Prop :=
  s._is_cancelled = true ∨
  (s._in_flight_rpc_num = 0 ∧ (∀ e ∈ s._closures, e.2.has_in_flight_rpc = false) ∧
    ∀ e ∈ s._buffers, e.2 = [])

/-- A completion callback of the transport. -/
def is_completion : Action → Bool
  | Action.rpc_success _ _ => true
  | Action.rpc_failed _ => true
  | _ => false

/-- The number of completion callbacks among the actions. -/
def completions (acts : List Action) : Nat := (acts.filter is_completion).length

/-! ## Sample values -/

/-- A first destination. -/
def dest_a : TUniqueId := { hi := 0, lo := 1 }

/-- A second destination. -/
def dest_b : TUniqueId := { hi := 0, lo := 2 }

/-- An object for a request to `d` with `n` chunks. -/
def sample_params (d : TUniqueId) (eos : Bool) (n : Nat) : PTransmitChunkParams :=
  { finst_id := some d, eos := eos, chunks := List.replicate n { data := [1] },
    sequence := none }

/-- A request for `d` whose object is at address `ptr`. -/
def sample_request (d : TUniqueId) (ptr : Nat) : TransmitChunkInfo :=
  { fragment_instance_id := d, brpc_stub := 7, params := ptr, attachment := [9] }

/-- The two sample destinations as the plan lists them. -/
def sample_destinations : List TPlanFragmentDestination :=
  [{ fragment_instance_id := dest_a }, { fragment_instance_id := dest_b }]

/-- A sink buffer for the two sample destinations, one sinker each. -/
def sample_buffer : SinkBuffer := SinkBuffer.new sample_destinations 1

/-- One data request for each sample destination, both sent, the first one completed. -/
def sample_actions : List Action :=
  [Action.make_params 100 (sample_params dest_a false 1),
   Action.make_params 101 (sample_params dest_b false 1),
   Action.add_request (sample_request dest_a 100),
   Action.add_request (sample_request dest_b 101),
   Action.process_buffer dest_a,
   Action.process_buffer dest_b,
   Action.rpc_success dest_a { status := { is_ok := true, message := "" } }]

/-- The state the sample actions lead to: the RPC of `dest_b` is still in flight. -/
def sample_state : SinkBuffer :=
  match sample_buffer.run [] sample_actions with
  | some (s, _) => s
  | none => sample_buffer

/-- A sink buffer with two sinkers for `dest_a` and three objects made for requests to
it: end of stream with a chunk at 100, data at 101, end of stream without chunks at
102. -/
def eos_state : SinkBuffer :=
  (((SinkBuffer.new [{ fragment_instance_id := dest_a }, { fragment_instance_id := dest_a }]
    1).make_params 100 (sample_params dest_a true 1)).make_params 101
      (sample_params dest_a false 1)).make_params 102 (sample_params dest_a true 0)

/-- Three requests to `dest_a`, each with an object of its own. -/
def distinct_requests : List TransmitChunkInfo :=
  [sample_request dest_a 100, sample_request dest_a 101, sample_request dest_a 102]

/-- Three requests to `dest_a`, the first two sharing the object at 100. -/
def shared_requests : List TransmitChunkInfo :=
  [sample_request dest_a 100, sample_request dest_a 100, sample_request dest_a 102]

/-- Two data requests for `dest_a` with one for `dest_b` between them, all three sent. -/
def fifo_actions : List Action :=
  [Action.make_params 100 (sample_params dest_a false 1),
   Action.make_params 101 (sample_params dest_b false 1),
   Action.make_params 102 (sample_params dest_a false 2),
   Action.add_request (sample_request dest_a 100),
   Action.add_request (sample_request dest_b 101),
   Action.add_request (sample_request dest_a 102),
   Action.process_buffer dest_a,
   Action.process_buffer dest_b,
   Action.rpc_success dest_a { status := { is_ok := true, message := "" } },
   Action.process_buffer dest_a]

/-- The sample state after an object for a data request to `dest_a` has been made at
address 100 and the shutdown has begun. -/
def shutdown_state : SinkBuffer :=
  (sample_state.make_params 100 (sample_params dest_a false 1)).shutdown

/-- A sink buffer with two sinkers for `dest_a` and the objects of two end-of-stream
requests that carry chunks, at addresses 100 and 101. -/
def two_eos_state : SinkBuffer :=
  ((SinkBuffer.new [{ fragment_instance_id := dest_a }] 2).make_params 100
    (sample_params dest_a true 1)).make_params 101 (sample_params dest_a true 2)

/-- Two end-of-stream requests without chunks and a data request for `dest_a` and a data
request for `dest_b`: with three sinkers the first end-of-stream request is dropped,
the two data requests are sent, the second end-of-stream request is still queued. -/
def drop_actions : List Action :=
  [Action.make_params 100 (sample_params dest_a true 0),
   Action.make_params 101 (sample_params dest_a false 1),
   Action.make_params 102 (sample_params dest_b false 1),
   Action.make_params 103 (sample_params dest_a true 0),
   Action.add_request (sample_request dest_a 100),
   Action.add_request (sample_request dest_a 101),
   Action.add_request (sample_request dest_b 102),
   Action.add_request (sample_request dest_a 103),
   Action.process_buffer dest_a,
   Action.process_buffer dest_a,
   Action.process_buffer dest_b]

/-- An end-of-stream request without chunks followed by a data request, both for
`dest_a` and each with an object of its own, both picked up by the scan loop. -/
def eos_then_data_actions : List Action :=
  [Action.make_params 100 (sample_params dest_a true 0),
   Action.make_params 101 (sample_params dest_a false 1),
   Action.add_request (sample_request dest_a 100),
   Action.add_request (sample_request dest_a 101),
   Action.process_buffer dest_a,
   Action.rpc_success dest_a { status := { is_ok := true, message := "" } },
   Action.process_buffer dest_a]

/-- A sink buffer with one sinker for `dest_a` and the objects of three end-of-stream
requests to it, the second one with a chunk. -/
def surplus_state : SinkBuffer :=
  (((SinkBuffer.new [{ fragment_instance_id := dest_a }] 1).make_params 100
    (sample_params dest_a true 0)).make_params 101
      (sample_params dest_a true 1)).make_params 102 (sample_params dest_a true 0)

/-- A sink buffer constructed with no sinker for `dest_a` and the object of an
end-of-stream request with a chunk. -/
def no_sinker_state : SinkBuffer :=
  (SinkBuffer.new [{ fragment_instance_id := dest_a }] 0).make_params 100
    (sample_params dest_a true 1)

/-! ## Association lists: basic facts -/

namespace Assoc

theorem lookup_set_self {K V : Type} [DecidableEq K] (k : K) (v : V) (m : List (K × V)) :
    lookup k (set k v m) = some v := by
  induction m with
  | nil => simp [set, lookup]
  | cons e m ih =>
    obtain ⟨k', v'⟩ := e
    by_cases h : k' = k
    · simp [set, lookup, h]
    · simp [set, lookup, h, ih]

theorem lookup_set_ne {K V : Type} [DecidableEq K] {k k' : K} (v : V) (m : List (K × V))
    (h : k' ≠ k) : lookup k' (set k v m) = lookup k' m := by
  induction m with
  | nil => simp [set, lookup, Ne.symm h]
  | cons e m ih =>
    obtain ⟨k1, v1⟩ := e
    by_cases h1 : k1 = k
    · subst h1
      simp [set, lookup, Ne.symm h]
    · by_cases h2 : k1 = k'
      · subst h2
        simp [set, lookup, h1]
      · simp [set, lookup, h1, h2, ih]

theorem keys_set_of_lookup {K V : Type} [DecidableEq K] {k : K} {v0 : V} (v : V)
    (m : List (K × V)) (h : lookup k m = some v0) : keys (set k v m) = keys m := by
  induction m with
  | nil => simp [lookup] at h
  | cons e m ih =>
    obtain ⟨k1, v1⟩ := e
    by_cases h1 : k1 = k
    · simp [set, keys, h1]
    · simp only [lookup, h1, if_false] at h
      have := ih h
      simp only [keys] at this
      simp [set, keys, h1, this]

theorem mem_of_lookup {K V : Type} [DecidableEq K] {k : K} {v : V} {m : List (K × V)}
    (h : lookup k m = some v) : (k, v) ∈ m := by
  induction m with
  | nil => simp [lookup] at h
  | cons e m ih =>
    obtain ⟨k1, v1⟩ := e
    by_cases h1 : k1 = k
    · simp only [lookup, h1, if_true, Option.some.injEq] at h
      simp [h1, h]
    · simp only [lookup, h1, if_false] at h
      exact List.mem_cons_of_mem _ (ih h)

theorem lookup_isSome_of_mem {K V : Type} [DecidableEq K] {k : K} {v : V} {m : List (K × V)}
    (h : (k, v) ∈ m) : ∃ v', lookup k m = some v' := by
  induction m with
  | nil => simp at h
  | cons e m ih =>
    obtain ⟨k1, v1⟩ := e
    by_cases h1 : k1 = k
    · exact ⟨v1, by simp [lookup, h1]⟩
    · have hm : (k, v) ∈ m := by
        rcases List.mem_cons.mp h with h2 | h2
        · exact absurd (congrArg Prod.fst h2).symm h1
        · exact h2
      obtain ⟨v', hv⟩ := ih hm
      exact ⟨v', by simp [lookup, h1, hv]⟩

/-- Every value of `set k v m` is `v` or a value of `m` under the same key. -/
theorem mem_set {K V : Type} [DecidableEq K] {k : K} {v : V} {m : List (K × V)} {e : K × V}
    (h : e ∈ set k v m) : e = (k, v) ∨ e ∈ m := by
  induction m with
  | nil => simpa [set] using h
  | cons e1 m ih =>
    obtain ⟨k1, v1⟩ := e1
    by_cases h1 : k1 = k
    · simp only [set, h1, if_true, List.mem_cons] at h
      rcases h with h | h
      · exact Or.inl h
      · exact Or.inr (List.mem_cons_of_mem _ h)
    · simp only [set, h1, if_false, List.mem_cons] at h
      rcases h with h | h
      · exact Or.inr (by simp [h])
      · rcases ih h with h2 | h2
        · exact Or.inl h2
        · exact Or.inr (List.mem_cons_of_mem _ h2)

theorem length_set_of_lookup {K V : Type} [DecidableEq K] {k : K} {v0 : V} (v : V)
    (m : List (K × V)) (h : lookup k m = some v0) : (set k v m).length = m.length := by
  have := congrArg List.length (keys_set_of_lookup v m h)
  simpa [keys] using this

theorem length_set_le {K V : Type} [DecidableEq K] (k : K) (v : V) (m : List (K × V)) :
    (set k v m).length ≤ m.length + 1 := by
  induction m with
  | nil => simp [set]
  | cons e m ih =>
    obtain ⟨k1, v1⟩ := e
    by_cases h1 : k1 = k
    · simp [set, h1]
    · simp only [set, h1, if_false, List.length_cons]
      omega

/-- Overwriting the entry of `k` changes a sum over the values by the difference at `k`. -/
theorem sum_set {K V : Type} [DecidableEq K] (f : V → Nat) {k : K} {v0 : V} (v : V)
    (m : List (K × V)) (h : lookup k m = some v0) :
    ((set k v m).map (fun e => f e.2)).sum + f v0 = (m.map (fun e => f e.2)).sum + f v := by
  induction m with
  | nil => simp [lookup] at h
  | cons e m ih =>
    obtain ⟨k1, v1⟩ := e
    by_cases h1 : k1 = k
    · simp only [lookup, h1, if_true, Option.some.injEq] at h
      subst h
      simp only [set, h1, if_true, List.map_cons, List.sum_cons]
      omega
    · simp only [lookup, h1, if_false] at h
      have := ih h
      simp only [set, h1, if_false, List.map_cons, List.sum_cons]
      omega

end Assoc

/-! ## Reading and writing through a pointer -/

namespace SinkBuffer

/-- After a write at `ptr`, the object at `ptr` is the one written and every other
object is as before. -/
theorem deref_of_heap {s t : SinkBuffer} {ptr : Nat} {v : PTransmitChunkParams}
    (h : t.heap = Assoc.set ptr v s.heap) :
    t.deref ptr = v ∧ ∀ q, q ≠ ptr → t.deref q = s.deref q := by
  constructor
  · simp [deref, h, Assoc.lookup_set_self]
  · intro q hq
    simp [deref, h, Assoc.lookup_set_ne _ _ hq]

theorem deref_of_heap_eq {s t : SinkBuffer} (h : t.heap = s.heap) (q : Nat) :
    t.deref q = s.deref q := by
  simp [deref, h]

/-! ## What each operation leaves unchanged -/

theorem stamp_and_transmit_frame {s s1 : SinkBuffer} {r : TransmitChunkInfo}
    {call : Option TransmitCall} (h : s.stamp_and_transmit r = some (s1, call)) :
    s1._is_cancelled = s._is_cancelled ∧ s1._buffers = s._buffers ∧
    s1._is_finished = s._is_finished ∧
    s1._num_sinkers_per_dest_instance = s._num_sinkers_per_dest_instance := by
  unfold stamp_and_transmit at h
  simp only at h
  split at h
  · simp at h
  · simp only [Option.some.injEq, Prod.mk.injEq] at h
    obtain ⟨h1, _⟩ := h
    subst h1
    simp

theorem send_rpc_frame {s s1 : SinkBuffer} {r : TransmitChunkInfo}
    {call : Option TransmitCall} (h : s._send_rpc r = some (s1, call)) :
    s1._is_cancelled = s._is_cancelled ∧ s1._buffers = s._buffers ∧
    s1._is_finished = s._is_finished := by
  unfold _send_rpc at h
  simp only at h
  split at h
  · split at h
    · split at h
      · simp only [Option.some.injEq, Prod.mk.injEq] at h
        obtain ⟨h1, _⟩ := h
        subst h1
        simp
      · obtain ⟨a, b, c, _⟩ := stamp_and_transmit_frame h
        exact ⟨a, b, c⟩
    · obtain ⟨a, b, c, _⟩ := stamp_and_transmit_frame h
      exact ⟨a, b, c⟩
  · obtain ⟨a, b, c, _⟩ := stamp_and_transmit_frame h
    exact ⟨a, b, c⟩

theorem process_buffer_cancelled {s s1 : SinkBuffer} {key : TUniqueId}
    {o : Option (TransmitChunkInfo × Option TransmitCall)}
    (h : s.process_buffer key = some (s1, o)) : s1._is_cancelled = s._is_cancelled := by
  unfold process_buffer at h
  split at h
  · simp only [Option.some.injEq, Prod.mk.injEq] at h
    rw [← h.1]
  · simp only [Option.some.injEq, Prod.mk.injEq] at h
    rw [← h.1]
  · split at h
    · simp at h
    · split at h
      · split at h
        · simp at h
        · rename_i s2 call hs
          simp only [Option.some.injEq, Prod.mk.injEq] at h
          rw [← h.1]
          exact (send_rpc_frame hs).1
      · simp only [Option.some.injEq, Prod.mk.injEq] at h
        rw [← h.1]

theorem run_closure_cancelled {s s1 : SinkBuffer} {dest : TUniqueId}
    {handler : SinkBuffer → SinkBuffer} (h : s.run_closure dest handler = some s1) :
    s1._is_cancelled = (handler s)._is_cancelled := by
  unfold run_closure at h
  split at h
  · simp at h
  · split at h
    · simp only [Option.some.injEq] at h
      rw [← h]
    · simp at h

theorem step_cancelled {s s1 : SinkBuffer} {a : Action} {events : List Event}
    (h : s.step a = some (s1, events)) (hc : s._is_cancelled = true) :
    s1._is_cancelled = true := by
  cases a with
  | make_params ptr params =>
    simp only [step, Option.some.injEq, Prod.mk.injEq] at h
    rw [← h.1]
    simpa [make_params] using hc
  | add_request r =>
    simp only [step, Option.some.injEq, Prod.mk.injEq] at h
    rw [← h.1]
    unfold add_request
    split <;> simpa using hc
  | process_buffer key =>
    simp only [step] at h
    split at h
    · simp at h
    · rename_i s2 hp
      simp only [Option.some.injEq, Prod.mk.injEq] at h
      rw [← h.1, process_buffer_cancelled hp, hc]
    · rename_i s2 r call hp
      simp only [Option.some.injEq, Prod.mk.injEq] at h
      rw [← h.1, process_buffer_cancelled hp, hc]
  | rpc_success dest result =>
    simp only [step, Option.map_eq_some', Prod.mk.injEq] at h
    obtain ⟨s2, h2, h3, _⟩ := h
    rw [← h3, run_closure_cancelled h2]
    unfold success_handler
    simp only
    split <;> simp [hc]
  | rpc_failed dest =>
    simp only [step, Option.map_eq_some', Prod.mk.injEq] at h
    obtain ⟨s2, h2, h3, _⟩ := h
    rw [← h3, run_closure_cancelled h2]
    simp [failed_handler]
  | shutdown =>
    simp only [step, Option.some.injEq, Prod.mk.injEq] at h
    rw [← h.1]
    simpa [shutdown] using hc

/-! ## What each operation does -/

/-- The two outcomes of `stamp_and_transmit`. -/
theorem stamp_and_transmit_spec {s s1 : SinkBuffer} {r : TransmitChunkInfo}
    {call : Option TransmitCall} (h : s.stamp_and_transmit r = some (s1, call)) :
    ∃ c, Assoc.lookup r.fragment_instance_id s._closures = some c ∧
      s1 = { s with
        heap := Assoc.set r.params { s.params_of r with sequence := some s._request_seq }
          s.heap
        _request_seq := wrap64 (s._request_seq + 1)
        _closures := Assoc.set r.fragment_instance_id c.ref s._closures
        _in_flight_rpc_num := wrap32 (s._in_flight_rpc_num + 1) } ∧
      call = some { fragment_instance_id := r.fragment_instance_id
                    brpc_stub := r.brpc_stub
                    timeout_ms := 500
                    request_attachment := r.attachment
                    params := { s.params_of r with sequence := some s._request_seq } } := by
  unfold stamp_and_transmit at h
  simp only at h
  split at h
  · simp at h
  · rename_i c hc
    simp only [Option.some.injEq, Prod.mk.injEq] at h
    exact ⟨c, hc, h.1.symm, h.2.symm⟩

/-- The outcomes of `_send_rpc`: the request is dropped and only the sinker count
changes, or it is transmitted with the current sequence number. -/
theorem send_rpc_spec {s s1 : SinkBuffer} {r : TransmitChunkInfo}
    {call : Option TransmitCall} (h : s._send_rpc r = some (s1, call)) :
    (call = none ∧ s1._closures = s._closures ∧ s1._request_seq = s._request_seq ∧
      s1._in_flight_rpc_num = s._in_flight_rpc_num ∧ s1.heap = s.heap) ∨
    (∃ c p, call = some p ∧
      Assoc.lookup r.fragment_instance_id s._closures = some c ∧
      s1._closures = Assoc.set r.fragment_instance_id c.ref s._closures ∧
      s1._request_seq = wrap64 (s._request_seq + 1) ∧
      s1._in_flight_rpc_num = wrap32 (s._in_flight_rpc_num + 1) ∧
      p.params.sequence = some s._request_seq ∧
      p.fragment_instance_id = r.fragment_instance_id ∧
      p.params.chunks = (s.params_of r).chunks ∧
      p.request_attachment = r.attachment ∧
      s1.params_of r = p.params ∧
      (∀ q, q ≠ r.params → s1.deref q = s.deref q) ∧
      (p.params.eos = true → (s.params_of r).eos = true) ∧
      p.params.finst_id = (s.params_of r).finst_id) := by
  have hstamp : ∀ (t t1 : SinkBuffer) (call1 : Option TransmitCall),
      t.stamp_and_transmit r = some (t1, call1) →
      ∃ c p, call1 = some p ∧
        Assoc.lookup r.fragment_instance_id t._closures = some c ∧
        t1._closures = Assoc.set r.fragment_instance_id c.ref t._closures ∧
        t1._request_seq = wrap64 (t._request_seq + 1) ∧
        t1._in_flight_rpc_num = wrap32 (t._in_flight_rpc_num + 1) ∧
        p.params = { t.params_of r with sequence := some t._request_seq } ∧
        p.fragment_instance_id = r.fragment_instance_id ∧
        p.request_attachment = r.attachment ∧
        t1.params_of r = p.params ∧
        (∀ q, q ≠ r.params → t1.deref q = t.deref q) := by
    intro t t1 call1 ht
    obtain ⟨c, hc, h1, h2⟩ := stamp_and_transmit_spec ht
    subst h1
    have hd := @deref_of_heap t
      { t with
        heap := Assoc.set r.params { t.params_of r with sequence := some t._request_seq }
          t.heap
        _request_seq := wrap64 (t._request_seq + 1)
        _closures := Assoc.set r.fragment_instance_id c.ref t._closures
        _in_flight_rpc_num := wrap32 (t._in_flight_rpc_num + 1) }
      r.params _ rfl
    exact ⟨c, _, h2, hc, rfl, rfl, rfl, rfl, rfl, rfl, hd.1, hd.2⟩
  unfold _send_rpc at h
  simp only at h
  split at h
  · split at h
    · split at h
      · simp only [Option.some.injEq, Prod.mk.injEq] at h
        obtain ⟨h1, h2⟩ := h
        subst h1
        exact Or.inl ⟨h2.symm, rfl, rfl, rfl, rfl⟩
      · obtain ⟨c, p, h1, h2, h3, h4, h5, h6, h7, h8, h9, h10⟩ := hstamp _ _ _ h
        have hp : p.params =
            { s.params_of r with eos := false, sequence := some s._request_seq } := by
          rw [h6]
          simp [params_of, deref, Assoc.lookup_set_self]
        refine Or.inr ⟨c, p, h1, h2, h3, h4, h5, ?_, h7, ?_, h8, h9, ?_, ?_, ?_⟩
        · rw [hp]
        · rw [hp]
        · intro q hq
          rw [h10 q hq]
          simp [deref, Assoc.lookup_set_ne _ _ hq]
        · rw [hp]
          intro hf
          cases hf
        · rw [hp]
    · rename_i heos _
      obtain ⟨c, p, h1, h2, h3, h4, h5, h6, h7, h8, h9, h10⟩ := hstamp _ _ _ h
      have hp : p.params = { s.params_of r with sequence := some s._request_seq } := by
        rw [h6]
        simp [params_of, deref]
      refine Or.inr ⟨c, p, h1, h2, h3, h4, h5, ?_, h7, ?_, h8, h9, ?_, ?_, ?_⟩
      · rw [hp]
      · rw [hp]
      · intro q hq
        rw [h10 q hq]
        simp [deref]
      · intro _
        exact heos
      · rw [hp]
  · obtain ⟨c, p, h1, h2, h3, h4, h5, h6, h7, h8, h9, h10⟩ := hstamp _ _ _ h
    refine Or.inr ⟨c, p, h1, h2, h3, h4, h5, ?_, h7, ?_, h8, h9, h10, ?_, ?_⟩
    · rw [h6]
    · rw [h6]
    · rw [h6]
      exact id
    · rw [h6]

/-- The outcomes of one body of the scan loop: nothing happens, or the front request
of the buffer is sent while its closure has no RPC in flight, and popped. -/
theorem process_buffer_spec {s s1 : SinkBuffer} {key : TUniqueId}
    {o : Option (TransmitChunkInfo × Option TransmitCall)}
    (h : s.process_buffer key = some (s1, o)) :
    (o = none ∧ s1 = s) ∨
    (∃ front rest c call s2, o = some (front, call) ∧
      Assoc.lookup key s._buffers = some (front :: rest) ∧
      Assoc.lookup front.fragment_instance_id s._closures = some c ∧
      c.has_in_flight_rpc = false ∧
      s._send_rpc front = some (s2, call) ∧
      s1 = { s2 with
        _buffers := Assoc.set key rest s2._buffers
        heap := Assoc.set front.params (s2.params_of front).release_finst_id s2.heap }) := by
  unfold process_buffer at h
  split at h
  · simp only [Option.some.injEq, Prod.mk.injEq] at h
    exact Or.inl ⟨h.2.symm, h.1.symm⟩
  · simp only [Option.some.injEq, Prod.mk.injEq] at h
    exact Or.inl ⟨h.2.symm, h.1.symm⟩
  · rename_i front rest hb
    split at h
    · simp at h
    · rename_i c hc
      split at h
      · rename_i hfl
        split at h
        · simp at h
        · rename_i s2 call hs
          simp only [Option.some.injEq, Prod.mk.injEq] at h
          refine Or.inr ⟨front, rest, c, call, s2, h.2.symm, hb, hc, ?_, hs, h.1.symm⟩
          simpa using hfl
      · simp only [Option.some.injEq, Prod.mk.injEq] at h
        exact Or.inl ⟨h.2.symm, h.1.symm⟩

/-- The outcome of a completion: an RPC of `dest` was in flight, the handler ran and
the reference of the submission was released. -/
theorem run_closure_spec {s s1 : SinkBuffer} {dest : TUniqueId}
    {handler : SinkBuffer → SinkBuffer} (h : s.run_closure dest handler = some s1) :
    ∃ c, Assoc.lookup dest s._closures = some c ∧ c.has_in_flight_rpc = true ∧
      s1 = { handler s with _closures := Assoc.set dest c.unref (handler s)._closures } := by
  unfold run_closure at h
  split at h
  · simp at h
  · rename_i c hc
    split at h
    · rename_i hfl
      simp only [Option.some.injEq] at h
      exact ⟨c, hc, hfl, h.symm⟩
    · simp at h

/-! ## Preservation of the invariants -/

theorem add_request_state (s : SinkBuffer) (r : TransmitChunkInfo) :
    s.add_request r =
      if s._is_finished then
        { s with heap := Assoc.set r.params (s.params_of r).release_finst_id s.heap }
      else { s with
        _buffers :=
          Assoc.set r.fragment_instance_id
            ((Assoc.lookup r.fragment_instance_id s._buffers).getD [] ++ [r]) s._buffers } := by
  unfold add_request
  split <;> rfl

theorem step_make_params {s s1 : SinkBuffer} {ptr : Nat} {v : PTransmitChunkParams}
    {events : List Event} (h : s.step (Action.make_params ptr v) = some (s1, events)) :
    s1 = { s with heap := Assoc.set ptr v s.heap } ∧ events = [] := by
  simp only [step, Option.some.injEq, Prod.mk.injEq] at h
  exact ⟨h.1.symm, h.2.symm⟩

theorem success_handler_heap (s : SinkBuffer) (res : PTransmitChunkResult) :
    (s.success_handler res).heap = s.heap := by
  unfold success_handler
  simp only
  split <;> simp

theorem success_handler_closures (s : SinkBuffer) (res : PTransmitChunkResult) :
    (s.success_handler res)._closures = s._closures ∧
    (s.success_handler res)._buffers = s._buffers ∧
    (s.success_handler res)._request_seq = s._request_seq ∧
    (s.success_handler res)._num_sinkers_per_dest_instance = s._num_sinkers_per_dest_instance ∧
    (s.success_handler res)._is_finished = s._is_finished ∧
    (s.success_handler res)._in_flight_rpc_num = wrap32 (s._in_flight_rpc_num - 1) := by
  unfold success_handler
  simp only
  split <;> simp

/-- Every step keeps the closures of the state, up to their reference counts, and
keeps each count between one and two. -/
theorem step_closures_ok {s s1 : SinkBuffer} {a : Action} {events : List Event}
    (h : s.step a = some (s1, events)) (hc : closures_ok s) : closures_ok s1 := by
  cases a with
  | make_params ptr v =>
    rw [(step_make_params h).1]
    exact hc
  | add_request r =>
    simp only [step, Option.some.injEq, Prod.mk.injEq] at h
    rw [← h.1, add_request_state]
    split <;> exact hc
  | process_buffer key =>
    have hp : ∃ o, s.process_buffer key = some (s1, o) := by
      simp only [step] at h
      split at h
      · simp at h
      · rename_i s2 hp
        simp only [Option.some.injEq, Prod.mk.injEq] at h
        exact ⟨none, by rw [hp, h.1]⟩
      · rename_i s2 r call hp
        simp only [Option.some.injEq, Prod.mk.injEq] at h
        exact ⟨some (r, call), by rw [hp, h.1]⟩
    obtain ⟨o, hp⟩ := hp
    rcases process_buffer_spec hp with ⟨_, h1⟩ | ⟨front, rest, c, call, s2, _, _, hc1, hfl, hs, h1⟩
    · rw [h1]; exact hc
    · subst h1
      rcases send_rpc_spec hs with ⟨_, h2, _, _⟩ | ⟨c', p, _, hc2, h2, _⟩
      · intro e he
        simp only at he
        rw [h2] at he
        exact hc e he
      · rw [hc1] at hc2
        cases hc2
        intro e he
        simp only at he
        rw [h2] at he
        rcases Assoc.mem_set he with h3 | h3
        · have hb : 1 ≤ c.refs ∧ c.refs ≤ 2 := hc _ (Assoc.mem_of_lookup hc1)
          simp only [CallBackClosure.has_in_flight_rpc, decide_eq_false_iff_not, not_lt] at hfl
          subst h3
          simp only [CallBackClosure.ref]
          omega
        · exact hc e h3
  | rpc_success dest result =>
    simp only [step, Option.map_eq_some', Prod.mk.injEq] at h
    obtain ⟨s2, h2, h3, _⟩ := h
    subst h3
    obtain ⟨c, hc1, hfl, h4⟩ := run_closure_spec h2
    subst h4
    intro e he
    simp only [(success_handler_closures s result).1] at he
    rcases Assoc.mem_set he with h3 | h3
    · have hb : 1 ≤ c.refs ∧ c.refs ≤ 2 := hc _ (Assoc.mem_of_lookup hc1)
      simp only [CallBackClosure.has_in_flight_rpc, decide_eq_true_eq] at hfl
      subst h3
      simp only [CallBackClosure.unref]
      omega
    · exact hc e h3
  | rpc_failed dest =>
    simp only [step, Option.map_eq_some', Prod.mk.injEq] at h
    obtain ⟨s2, h2, h3, _⟩ := h
    subst h3
    obtain ⟨c, hc1, hfl, h4⟩ := run_closure_spec h2
    subst h4
    intro e he
    simp only [failed_handler] at he
    rcases Assoc.mem_set he with h3 | h3
    · have hb : 1 ≤ c.refs ∧ c.refs ≤ 2 := hc _ (Assoc.mem_of_lookup hc1)
      simp only [CallBackClosure.has_in_flight_rpc, decide_eq_true_eq] at hfl
      subst h3
      simp only [CallBackClosure.unref]
      omega
    · exact hc e h3
  | shutdown =>
    simp only [step, Option.some.injEq, Prod.mk.injEq] at h
    rw [← h.1]
    exact hc

theorem wrap32_of_range {x : Int} (h1 : -2147483648 ≤ x) (h2 : x < 2147483648) :
    wrap32 x = x := by
  unfold wrap32
  omega

theorem wrap64_of_range {x : Int} (h1 : -9223372036854775808 ≤ x)
    (h2 : x < 9223372036854775808) : wrap64 x = x := by
  unfold wrap64
  omega

/-- What a step of the scan loop does, as seen from `step`. -/
theorem step_process_buffer_spec {s s1 : SinkBuffer} {key : TUniqueId} {events : List Event}
    (h : s.step (Action.process_buffer key) = some (s1, events)) :
    (s1 = s ∧ events = []) ∨
    (∃ front rest c call s2, events = [Event.picked front call] ∧
      Assoc.lookup key s._buffers = some (front :: rest) ∧
      Assoc.lookup front.fragment_instance_id s._closures = some c ∧
      c.has_in_flight_rpc = false ∧
      s._send_rpc front = some (s2, call) ∧
      s1 = { s2 with
        _buffers := Assoc.set key rest s2._buffers
        heap := Assoc.set front.params (s2.params_of front).release_finst_id s2.heap }) := by
  simp only [step] at h
  split at h
  · simp at h
  · rename_i s2 hp
    simp only [Option.some.injEq, Prod.mk.injEq] at h
    obtain ⟨h1, h2⟩ := h
    subst h1
    rcases process_buffer_spec hp with ⟨_, h3⟩ | ⟨front, rest, c, call, s3, h3, _⟩
    · exact Or.inl ⟨h3, h2.symm⟩
    · simp at h3
  · rename_i s2 r call hp
    simp only [Option.some.injEq, Prod.mk.injEq] at h
    obtain ⟨h1, h2⟩ := h
    subst h1
    rcases process_buffer_spec hp with ⟨h3, _⟩ | ⟨front, rest, c, call', s3, h3, h4, h5, h6, h7, h8⟩
    · simp at h3
    · simp only [Option.some.injEq, Prod.mk.injEq] at h3
      obtain ⟨h9, h10⟩ := h3
      subst h9 h10
      exact Or.inr ⟨r, rest, c, call, s3, h2.symm, h4, h5, h6, h7, h8⟩

/-- What a completion does, as seen from `step`. -/
theorem step_completion_spec {s s1 : SinkBuffer} {a : Action} {events : List Event}
    (h : s.step a = some (s1, events)) :
    (∀ dest result, a = Action.rpc_success dest result →
      events = [] ∧ ∃ c, Assoc.lookup dest s._closures = some c ∧ c.has_in_flight_rpc = true ∧
        s1 = { s.success_handler result with
                _closures := Assoc.set dest c.unref s._closures }) ∧
    (∀ dest, a = Action.rpc_failed dest →
      events = [] ∧ ∃ c, Assoc.lookup dest s._closures = some c ∧ c.has_in_flight_rpc = true ∧
        s1 = { s.failed_handler with _closures := Assoc.set dest c.unref s._closures }) := by
  constructor
  · intro dest result ha
    subst ha
    simp only [step, Option.map_eq_some', Prod.mk.injEq] at h
    obtain ⟨s2, h2, h3, h4⟩ := h
    subst h3
    obtain ⟨c, hc1, hfl, h5⟩ := run_closure_spec h2
    refine ⟨h4.symm, c, hc1, hfl, ?_⟩
    rw [h5, (success_handler_closures s result).1]
  · intro dest ha
    subst ha
    simp only [step, Option.map_eq_some', Prod.mk.injEq] at h
    obtain ⟨s2, h2, h3, h4⟩ := h
    subst h3
    obtain ⟨c, hc1, hfl, h5⟩ := run_closure_spec h2
    refine ⟨h4.symm, c, hc1, hfl, ?_⟩
    rw [h5]
    rfl

theorem total_outstanding_le {s : SinkBuffer} (hc : closures_ok s) :
    total_outstanding s ≤ s._closures.length := by
  unfold total_outstanding
  unfold closures_ok at hc
  generalize s._closures = m at hc
  induction m with
  | nil => simp
  | cons e m ih =>
    have h1 := hc e (List.mem_cons_self _ _)
    have h2 := ih (fun e' he' => hc e' (List.mem_cons_of_mem _ he'))
    simp only [List.map_cons, List.sum_cons, List.length_cons, CallBackClosure.outstanding] at h2 ⊢
    omega

/-- Every step keeps `_in_flight_rpc_num` equal to the number of submissions that
have not completed, as long as the destinations are fewer than `2^31`. -/
theorem step_counter_ok {s s1 : SinkBuffer} {a : Action} {events : List Event}
    (h : s.step a = some (s1, events)) (hlen : s._closures.length < 2147483648)
    (hc : closures_ok s) (hn : counter_ok s) :
    counter_ok s1 ∧ s1._closures.length = s._closures.length := by
  have hc1 := step_closures_ok h hc
  have hle := total_outstanding_le hc
  have hle1 := total_outstanding_le hc1
  unfold counter_ok at hn ⊢
  cases a with
  | make_params ptr v =>
    rw [(step_make_params h).1]
    exact ⟨hn, rfl⟩
  | add_request r =>
    simp only [step, Option.some.injEq, Prod.mk.injEq] at h
    obtain ⟨h1, _⟩ := h
    subst h1
    rw [add_request_state]
    split
    · exact ⟨hn, rfl⟩
    · exact ⟨hn, rfl⟩
  | process_buffer key =>
    rcases step_process_buffer_spec h with ⟨h1, _⟩ | ⟨front, rest, c, call, s2, _, _, hcl, hfl, hs, h1⟩
    · subst h1
      exact ⟨hn, rfl⟩
    · subst h1
      rcases send_rpc_spec hs with ⟨_, h2, _, h3⟩ | ⟨c', p, _, hc2, h2, _, h3, _⟩
      · simp only [total_outstanding, h2, h3] at hle1 ⊢
        exact ⟨hn, trivial⟩
      · rw [hcl] at hc2
        cases hc2
        have hb : 1 ≤ c.refs ∧ c.refs ≤ 2 := hc _ (Assoc.mem_of_lookup hcl)
        simp only [CallBackClosure.has_in_flight_rpc, decide_eq_false_iff_not, not_lt] at hfl
        have hsum := Assoc.sum_set CallBackClosure.outstanding c.ref s._closures hcl
        have hl := Assoc.length_set_of_lookup c.ref s._closures hcl
        simp only [total_outstanding, h2, h3, hl] at hle1 hle ⊢
        simp only [CallBackClosure.outstanding, CallBackClosure.ref] at hsum hle1 hle ⊢
        simp only [total_outstanding, CallBackClosure.outstanding] at hn
        refine ⟨?_, trivial⟩
        rw [wrap32_of_range (by omega) (by omega)]
        omega
  | rpc_success dest result =>
    obtain ⟨_, c, hcl, hfl, h1⟩ := (step_completion_spec h).1 dest result rfl
    subst h1
    have hb : 1 ≤ c.refs ∧ c.refs ≤ 2 := hc _ (Assoc.mem_of_lookup hcl)
    simp only [CallBackClosure.has_in_flight_rpc, decide_eq_true_eq] at hfl
    have hsum := Assoc.sum_set CallBackClosure.outstanding c.unref s._closures hcl
    have hl := Assoc.length_set_of_lookup c.unref s._closures hcl
    simp only [total_outstanding, hl, (success_handler_closures s result).2.2.2.2.2] at hle1 hle ⊢
    simp only [CallBackClosure.outstanding, CallBackClosure.unref] at hsum hle1 hle ⊢
    simp only [total_outstanding, CallBackClosure.outstanding] at hn
    refine ⟨?_, trivial⟩
    rw [wrap32_of_range (by omega) (by omega)]
    omega
  | rpc_failed dest =>
    obtain ⟨_, c, hcl, hfl, h1⟩ := (step_completion_spec h).2 dest rfl
    subst h1
    have hb : 1 ≤ c.refs ∧ c.refs ≤ 2 := hc _ (Assoc.mem_of_lookup hcl)
    simp only [CallBackClosure.has_in_flight_rpc, decide_eq_true_eq] at hfl
    have hsum := Assoc.sum_set CallBackClosure.outstanding c.unref s._closures hcl
    have hl := Assoc.length_set_of_lookup c.unref s._closures hcl
    simp only [total_outstanding, hl, failed_handler] at hle1 hle ⊢
    simp only [CallBackClosure.outstanding, CallBackClosure.unref] at hsum hle1 hle ⊢
    simp only [total_outstanding, CallBackClosure.outstanding] at hn
    refine ⟨?_, trivial⟩
    rw [wrap32_of_range (by omega) (by omega)]
    omega
  | shutdown =>
    simp only [step, Option.some.injEq, Prod.mk.injEq] at h
    obtain ⟨h1, _⟩ := h
    subst h1
    exact ⟨hn, rfl⟩

/-- Every step keeps each queued request in the buffer of its own destination. -/
theorem step_buffers_keyed {s s1 : SinkBuffer} {a : Action} {events : List Event}
    (h : s.step a = some (s1, events)) (hk : buffers_keyed s) : buffers_keyed s1 := by
  cases a with
  | make_params ptr v =>
    rw [(step_make_params h).1]
    exact hk
  | add_request r =>
    simp only [step, Option.some.injEq, Prod.mk.injEq] at h
    obtain ⟨h1, _⟩ := h
    subst h1
    rw [add_request_state]
    split
    · exact hk
    · intro e he r' hr'
      simp only at he
      rcases Assoc.mem_set he with h3 | h3
      · subst h3
        simp only [List.mem_append, List.mem_singleton] at hr'
        rcases hr' with h4 | h4
        · cases hq : Assoc.lookup r.fragment_instance_id s._buffers with
          | none => simp [hq] at h4
          | some q =>
            simp only [hq, Option.getD_some] at h4
            exact hk _ (Assoc.mem_of_lookup hq) r' h4
        · rw [h4]
      · exact hk e h3 r' hr'
  | process_buffer key =>
    rcases step_process_buffer_spec h with ⟨h1, _⟩ | ⟨front, rest, c, call, s2, _, hb, _, _, hs, h1⟩
    · subst h1
      exact hk
    · subst h1
      intro e he r' hr'
      simp only [(send_rpc_frame hs).2.1] at he
      rcases Assoc.mem_set he with h3 | h3
      · subst h3
        exact hk _ (Assoc.mem_of_lookup hb) r' (List.mem_cons_of_mem _ hr')
      · exact hk e h3 r' hr'
  | rpc_success dest result =>
    obtain ⟨_, c, _, _, h1⟩ := (step_completion_spec h).1 dest result rfl
    subst h1
    intro e he
    simp only [(success_handler_closures s result).2.1] at he
    exact hk e he
  | rpc_failed dest =>
    obtain ⟨_, c, _, _, h1⟩ := (step_completion_spec h).2 dest rfl
    subst h1
    exact hk
  | shutdown =>
    simp only [step, Option.some.injEq, Prod.mk.injEq] at h
    obtain ⟨h1, _⟩ := h
    subst h1
    exact hk

/-- Every step keeps the order of the requests of each destination: enqueued is picked
up followed by queued. -/
theorem step_fifo_ok {s s1 : SinkBuffer} {a : Action} {log events : List Event}
    (h : s.step a = some (s1, events)) (hk : buffers_keyed s) (hf : fifo_ok s log) :
    fifo_ok s1 (log ++ events) := by
  cases a with
  | make_params ptr v =>
    obtain ⟨h1, h2⟩ := step_make_params h
    subst h1 h2
    intro d
    simpa using hf d
  | add_request r =>
    simp only [step, Option.some.injEq, Prod.mk.injEq] at h
    obtain ⟨h1, h2⟩ := h
    subst h1 h2
    rw [add_request_state]
    intro d
    have hd := hf d
    cases hfin : s._is_finished with
    | true =>
      simp only [enqueued_for, picked_for, List.filterMap_append] at hd ⊢
      simpa using hd
    | false =>
      simp only [enqueued_for, picked_for, List.filterMap_append] at hd ⊢
      by_cases hrd : r.fragment_instance_id = d
      · subst hrd
        simp [hd, Assoc.lookup_set_self]
      · have hne : d ≠ r.fragment_instance_id := fun h => hrd h.symm
        simp [hd, hrd, Assoc.lookup_set_ne _ _ hne]
  | process_buffer key =>
    rcases step_process_buffer_spec h with ⟨h1, h2⟩ | ⟨front, rest, c, call, s2, h2, hb, _, _, hs, h1⟩
    · subst h1 h2
      simpa using hf
    · subst h1 h2
      intro d
      have hd := hf d
      have hfk : front.fragment_instance_id = key :=
        hk _ (Assoc.mem_of_lookup hb) front (List.mem_cons_self _ _)
      simp only [enqueued_for, picked_for, List.filterMap_append, (send_rpc_frame hs).2.1]
        at hd ⊢
      by_cases hkd : key = d
      · subst hkd
        rw [hb] at hd
        simp [hd, hfk, Assoc.lookup_set_self]
      · have hne : d ≠ key := fun h => hkd h.symm
        have hne2 : ¬ front.fragment_instance_id = d := by rw [hfk]; exact hkd
        simp [hd, hne2, Assoc.lookup_set_ne _ _ hne]
  | rpc_success dest result =>
    obtain ⟨h2, c, _, _, h1⟩ := (step_completion_spec h).1 dest result rfl
    subst h1 h2
    intro d
    simpa [(success_handler_closures s result).2.1] using hf d
  | rpc_failed dest =>
    obtain ⟨h2, c, _, _, h1⟩ := (step_completion_spec h).2 dest rfl
    subst h1 h2
    intro d
    simpa [failed_handler] using hf d
  | shutdown =>
    simp only [step, Option.some.injEq, Prod.mk.injEq] at h
    obtain ⟨h1, h2⟩ := h
    subst h1 h2
    intro d
    simpa [shutdown] using hf d

/-- A step makes at most one call to the transport. -/
theorem step_transmitted_length {s s1 : SinkBuffer} {a : Action} {events : List Event}
    (h : s.step a = some (s1, events)) : (transmitted events).length ≤ 1 := by
  cases a with
  | make_params ptr v =>
    rw [(step_make_params h).2]
    simp [transmitted]
  | add_request r =>
    simp only [step, Option.some.injEq, Prod.mk.injEq] at h
    obtain ⟨_, h2⟩ := h
    subst h2
    simp only [transmitted]
    split <;> simp
  | process_buffer key =>
    rcases step_process_buffer_spec h with ⟨_, h2⟩ | ⟨front, rest, c, call, s2, h2, _⟩
    · subst h2
      simp [transmitted]
    · subst h2
      cases call <;> simp [transmitted]
  | rpc_success dest result =>
    obtain ⟨h2, _⟩ := (step_completion_spec h).1 dest result rfl
    subst h2
    simp [transmitted]
  | rpc_failed dest =>
    obtain ⟨h2, _⟩ := (step_completion_spec h).2 dest rfl
    subst h2
    simp [transmitted]
  | shutdown =>
    simp only [step, Option.some.injEq, Prod.mk.injEq] at h
    obtain ⟨_, h2⟩ := h
    subst h2
    simp [transmitted]

/-- Every step keeps the numbering of the calls, as long as the counter stays in the
range of `int64_t`. -/
theorem step_seq_ok {s s1 : SinkBuffer} {a : Action} {log events : List Event}
    (h : s.step a = some (s1, events))
    (hlen : ((transmitted log).length : Int) + 1 < 9223372036854775808)
    (hq : seq_ok s log) : seq_ok s1 (log ++ events) := by
  obtain ⟨hq1, hq2⟩ := hq
  cases a with
  | make_params ptr v =>
    obtain ⟨h1, h2⟩ := step_make_params h
    subst h1 h2
    unfold seq_ok
    simp only [List.append_nil]
    exact ⟨hq1, hq2⟩
  | add_request r =>
    simp only [step, Option.some.injEq, Prod.mk.injEq] at h
    obtain ⟨h1, h2⟩ := h
    subst h1 h2
    have ht : transmitted (log ++ [if s._is_finished = true then Event.discarded r
        else Event.enqueued r]) = transmitted log := by
      simp only [transmitted, List.filterMap_append]
      split <;> simp
    rw [add_request_state]
    unfold seq_ok
    rw [ht]
    split
    · exact ⟨hq1, hq2⟩
    · exact ⟨hq1, hq2⟩
  | process_buffer key =>
    rcases step_process_buffer_spec h with ⟨h1, h2⟩ | ⟨front, rest, c, call, s2, h2, _, _, _, hs, h1⟩
    · subst h1 h2
      simpa using And.intro hq1 hq2
    · subst h1 h2
      rcases send_rpc_spec hs with ⟨h3, _, h4, _⟩ | ⟨c', p, h3, _, _, h4, _, h5, _⟩
      · subst h3
        have ht : transmitted (log ++ [Event.picked front none]) = transmitted log := by
          simp [transmitted, List.filterMap_append]
        unfold seq_ok
        rw [ht]
        exact ⟨by simpa [h4] using hq1, hq2⟩
      · subst h3
        have ht : transmitted (log ++ [Event.picked front (some p)]) = transmitted log ++ [p] := by
          simp [transmitted, List.filterMap_append]
        unfold seq_ok
        rw [ht]
        constructor
        · simp only [h4, hq1, List.length_append, List.length_singleton, Nat.cast_add,
            Nat.cast_one]
          exact wrap64_of_range (by omega) (by omega)
        · intro i call hi
          by_cases hlt : i < (transmitted log).length
          · rw [List.getElem?_append_left hlt] at hi
            exact hq2 i call hi
          · have hge : (transmitted log).length ≤ i := Nat.le_of_not_lt hlt
            rw [List.getElem?_append_right hge] at hi
            have hi0 : i - (transmitted log).length = 0 := by
              by_contra hne
              have : [p][i - (transmitted log).length]? = none := by
                apply List.getElem?_eq_none
                simp only [List.length_singleton]
                omega
              rw [this] at hi
              simp at hi
            rw [hi0] at hi
            simp only [List.getElem?_cons_zero, Option.some.injEq] at hi
            subst hi
            rw [h5, hq1]
            have : i = (transmitted log).length := by omega
            rw [this]
  | rpc_success dest result =>
    obtain ⟨h2, c, _, _, h1⟩ := (step_completion_spec h).1 dest result rfl
    subst h1 h2
    unfold seq_ok
    simp only [List.append_nil, (success_handler_closures s result).2.2.1]
    exact ⟨hq1, hq2⟩
  | rpc_failed dest =>
    obtain ⟨h2, c, _, _, h1⟩ := (step_completion_spec h).2 dest rfl
    subst h1 h2
    unfold seq_ok
    simp only [List.append_nil, failed_handler]
    exact ⟨hq1, hq2⟩
  | shutdown =>
    simp only [step, Option.some.injEq, Prod.mk.injEq] at h
    obtain ⟨h1, h2⟩ := h
    subst h1 h2
    unfold seq_ok
    simp only [List.append_nil, shutdown]
    exact ⟨hq1, hq2⟩

/-! ## The constructed state -/

theorem add_destination_fresh (n : Nat) (s : SinkBuffer) (dest : TPlanFragmentDestination)
    (h : fresh s) : fresh (add_destination n s dest) := by
  obtain ⟨h1, h2, h3, h4, h5, h6⟩ := h
  unfold add_destination
  simp only
  split
  · exact ⟨h1, h2, h3, h4, h5, h6⟩
  · refine ⟨?_, ?_, h3, h4, h5, h6⟩
    · intro e he
      rcases Assoc.mem_set he with h7 | h7
      · subst h7
        rfl
      · exact h1 e h7
    · intro e he
      rcases Assoc.mem_set he with h7 | h7
      · subst h7
        rfl
      · exact h2 e h7

theorem foldl_add_destination_fresh (n : Nat) (dests : List TPlanFragmentDestination)
    (s : SinkBuffer) (h : fresh s) : fresh (dests.foldl (add_destination n) s) := by
  induction dests generalizing s with
  | nil => exact h
  | cons d ds ih => exact ih _ (add_destination_fresh n s d h)

theorem new_fresh (dests : List TPlanFragmentDestination) (n : Nat) : fresh (new dests n) := by
  apply foldl_add_destination_fresh
  refine ⟨?_, ?_, rfl, rfl, rfl, rfl⟩ <;> intro e he <;> simp [empty] at he

theorem foldl_add_destination_length (n : Nat) (dests : List TPlanFragmentDestination)
    (s : SinkBuffer) :
    (dests.foldl (add_destination n) s)._closures.length ≤ s._closures.length + dests.length := by
  induction dests generalizing s with
  | nil => simp
  | cons d ds ih =>
    have h1 := ih (add_destination n s d)
    have h2 : (add_destination n s d)._closures.length ≤ s._closures.length + 1 := by
      unfold add_destination
      simp only
      split
      · simp
      · exact Assoc.length_set_le _ _ _
    simp only [List.foldl_cons, List.length_cons]
    omega

/-- The constructor creates at most one closure per entry of the destination list. -/
theorem new_closures_length (dests : List TPlanFragmentDestination) (n : Nat) :
    (new dests n)._closures.length ≤ dests.length := by
  have := foldl_add_destination_length n dests empty
  simpa [new, empty] using this

theorem fresh_closures_ok {s : SinkBuffer} (h : fresh s) : closures_ok s := by
  intro e he
  have := h.1 e he
  omega

theorem fresh_counter_ok {s : SinkBuffer} (h : fresh s) : counter_ok s := by
  obtain ⟨h1, _, _, h4, _⟩ := h
  unfold counter_ok total_outstanding
  rw [h4]
  generalize s._closures = m at h1
  induction m with
  | nil => simp
  | cons e m ih =>
    have h2 := h1 e (List.mem_cons_self _ _)
    have h3 := ih (fun e' he' => h1 e' (List.mem_cons_of_mem _ he'))
    simp only [List.map_cons, List.sum_cons, CallBackClosure.outstanding, h2] at h3 ⊢
    simpa using h3

theorem fresh_buffers_keyed {s : SinkBuffer} (h : fresh s) : buffers_keyed s := by
  intro e he r hr
  rw [h.2.1 e he] at hr
  simp at hr

theorem fresh_fifo_ok {s : SinkBuffer} (h : fresh s) : fifo_ok s [] := by
  intro d
  cases hq : Assoc.lookup d s._buffers with
  | none => simp [enqueued_for, picked_for]
  | some q =>
    have := h.2.1 _ (Assoc.mem_of_lookup hq)
    simp only at this
    simp [enqueued_for, picked_for, this]

theorem fresh_seq_ok {s : SinkBuffer} (h : fresh s) : seq_ok s [] := by
  refine ⟨by simp [h.2.2.1, transmitted], ?_⟩
  intro i call hi
  simp [transmitted] at hi

/-! ## Invariants along a run -/

theorem run_cons {s : SinkBuffer} {log : List Event} {a : Action} {acts : List Action}
    {r : SinkBuffer × List Event} (h : s.run log (a :: acts) = some r) :
    ∃ s1 events, s.step a = some (s1, events) ∧ s1.run (log ++ events) acts = some r := by
  simp only [run] at h
  split at h
  · simp at h
  · rename_i s1 events hs
    exact ⟨s1, events, hs, h⟩

/-- One pass of the scan loop is a run of its bodies, one for each buffer. -/
theorem process_scan_from_run (keys : List TUniqueId) :
    ∀ (s s1 : SinkBuffer) (find_any : Bool) (events log : List Event),
      s.process_scan_from keys = some (s1, find_any, events) →
      s.run log (keys.map Action.process_buffer) = some (s1, log ++ events) := by
  induction keys with
  | nil =>
    intro s s1 find_any events log h
    simp only [process_scan_from, Option.some.injEq, Prod.mk.injEq] at h
    obtain ⟨h1, _, h3⟩ := h
    subst h1 h3
    simp [run]
  | cons key keys ih =>
    intro s s1 find_any events log h
    simp only [process_scan_from] at h
    split at h
    · simp at h
    · rename_i s2 picked hp
      split at h
      · simp at h
      · rename_i s3 found events3 hrest
        simp only [Option.some.injEq, Prod.mk.injEq] at h
        obtain ⟨h1, _, h3⟩ := h
        subst h1 h3
        have hstep : s.step (Action.process_buffer key) = some (s2, scan_events picked) := by
          simp only [step, hp]
          cases picked with
          | none => rfl
          | some p => rfl
        simp only [List.map_cons, run, hstep]
        rw [ih s2 s3 found events3 (log ++ scan_events picked) hrest, List.append_assoc]

/-- Along a run every closure keeps at most one submission, every queued request stays
in its own buffer and the requests of each destination keep their order. -/
theorem run_inv {s s1 : SinkBuffer} {log log1 : List Event} {acts : List Action}
    (h : s.run log acts = some (s1, log1)) (hc : closures_ok s) (hk : buffers_keyed s)
    (hf : fifo_ok s log) : closures_ok s1 ∧ buffers_keyed s1 ∧ fifo_ok s1 log1 := by
  induction acts generalizing s log with
  | nil =>
    simp only [run, Option.some.injEq, Prod.mk.injEq] at h
    obtain ⟨h1, h2⟩ := h
    subst h1 h2
    exact ⟨hc, hk, hf⟩
  | cons a acts ih =>
    obtain ⟨s2, events, hs, hr⟩ := run_cons h
    exact ih hr (step_closures_ok hs hc) (step_buffers_keyed hs hk) (step_fifo_ok hs hk hf)

/-- Along a run `_in_flight_rpc_num` stays the number of submissions that have not
completed, and no closure is created. -/
theorem run_counter_ok {s s1 : SinkBuffer} {log log1 : List Event} {acts : List Action}
    (h : s.run log acts = some (s1, log1)) (hlen : s._closures.length < 2147483648)
    (hc : closures_ok s) (hn : counter_ok s) :
    counter_ok s1 ∧ closures_ok s1 ∧ s1._closures.length = s._closures.length := by
  induction acts generalizing s log with
  | nil =>
    simp only [run, Option.some.injEq, Prod.mk.injEq] at h
    obtain ⟨h1, h2⟩ := h
    subst h1 h2
    exact ⟨hn, hc, rfl⟩
  | cons a acts ih =>
    obtain ⟨s2, events, hs, hr⟩ := run_cons h
    obtain ⟨h1, h2⟩ := step_counter_ok hs hlen hc hn
    obtain ⟨h3, h4, h5⟩ := ih hr (by omega) (step_closures_ok hs hc) h1
    exact ⟨h3, h4, by omega⟩

/-- Along a run the calls are numbered in the order they are made, as long as the
counter stays in the range of `int64_t`. -/
theorem run_seq_ok {s s1 : SinkBuffer} {log log1 : List Event} {acts : List Action}
    (h : s.run log acts = some (s1, log1))
    (hlen : ((transmitted log).length : Int) + acts.length < 9223372036854775808)
    (hq : seq_ok s log) : seq_ok s1 log1 := by
  induction acts generalizing s log with
  | nil =>
    simp only [run, Option.some.injEq, Prod.mk.injEq] at h
    obtain ⟨h1, h2⟩ := h
    subst h1 h2
    exact hq
  | cons a acts ih =>
    obtain ⟨s2, events, hs, hr⟩ := run_cons h
    simp only [List.length_cons, Nat.cast_add, Nat.cast_one] at hlen
    have h1 := step_transmitted_length hs
    have h2 : transmitted (log ++ events) = transmitted log ++ transmitted events := by
      simp [transmitted, List.filterMap_append]
    apply ih hr
    · rw [h2, List.length_append]
      push_cast
      omega
    · exact step_seq_ok hs (by omega) hq

/-! ## End of stream along a sequence of submissions -/

/-- A request whose destination has a closure is processed by `_send_rpc` to the end. -/
theorem send_rpc_total {s : SinkBuffer} {r : TransmitChunkInfo}
    (h : known s r.fragment_instance_id) : ∃ s1 call, s._send_rpc r = some (s1, call) := by
  obtain ⟨c, hc⟩ := h
  unfold _send_rpc stamp_and_transmit
  simp only [hc]
  split
  · split
    · split
      · exact ⟨_, _, rfl⟩
      · exact ⟨_, _, rfl⟩
    · exact ⟨_, _, rfl⟩
  · exact ⟨_, _, rfl⟩

/-- The method `_send_rpc` deletes no closure. -/
theorem send_rpc_known {s s1 : SinkBuffer} {r : TransmitChunkInfo}
    {call : Option TransmitCall} (h : s._send_rpc r = some (s1, call)) (d : TUniqueId)
    (hd : known s d) : known s1 d := by
  obtain ⟨c0, hc0⟩ := hd
  rcases send_rpc_spec h with ⟨_, h2, _⟩ | ⟨c, p, _, _, h2, _⟩
  · exact ⟨c0, by rw [h2, hc0]⟩
  · by_cases hrd : d = r.fragment_instance_id
    · subst hrd
      exact ⟨c.ref, by rw [h2, Assoc.lookup_set_self]⟩
    · exact ⟨c0, by rw [h2, Assoc.lookup_set_ne _ _ hrd, hc0]⟩

/-- The three ways `_send_rpc` treats a request, by the end-of-stream flag of its
object, the sinker count after the decrement and its chunk count. -/
theorem send_rpc_cases (s : SinkBuffer) (r : TransmitChunkInfo) :
    s._send_rpc r =
      if (s.params_of r).eos = true then
        if 0 < size_dec (sinkers s r.fragment_instance_id) then
          if (s.params_of r).chunks_size = 0 then
            some ({ s with
              _num_sinkers_per_dest_instance :=
                Assoc.set r.fragment_instance_id (size_dec (sinkers s r.fragment_instance_id))
                  s._num_sinkers_per_dest_instance }, none)
          else
            stamp_and_transmit
              { s with
                _num_sinkers_per_dest_instance :=
                  Assoc.set r.fragment_instance_id (size_dec (sinkers s r.fragment_instance_id))
                    s._num_sinkers_per_dest_instance
                heap := Assoc.set r.params { s.params_of r with eos := false } s.heap }
              r
        else
          stamp_and_transmit
            { s with
              _num_sinkers_per_dest_instance :=
                Assoc.set r.fragment_instance_id (size_dec (sinkers s r.fragment_instance_id))
                  s._num_sinkers_per_dest_instance }
            r
      else stamp_and_transmit s r := by
  unfold _send_rpc sinkers
  rfl

/-- What `_send_rpc` does to the objects: it writes only to the object of the request,
sets no end-of-stream flag and changes no chunk. -/
theorem send_rpc_heap {s s1 : SinkBuffer} {r : TransmitChunkInfo}
    {call : Option TransmitCall} (h : s._send_rpc r = some (s1, call)) :
    (∀ q, q ≠ r.params → s1.deref q = s.deref q) ∧
    (∀ q, (s1.deref q).eos = true → (s.deref q).eos = true) ∧
    (∀ q, (s1.deref q).chunks = (s.deref q).chunks) := by
  rcases send_rpc_spec h with ⟨_, _, _, _, h5⟩ | ⟨c, p, _, _, _, _, _, _, _, h8, _, h10, h11, h12, _⟩
  · have hd := deref_of_heap_eq h5
    exact ⟨fun q _ => hd q, fun q hq => by rw [← hd q]; exact hq, fun q => by rw [hd q]⟩
  · refine ⟨h11, ?_, ?_⟩
    · intro q hq
      by_cases hqr : q = r.params
      · subst hqr
        apply h12
        rw [← h10]
        exact hq
      · rw [← h11 q hqr]
        exact hq
    · intro q
      by_cases hqr : q = r.params
      · subst hqr
        have : s1.deref r.params = p.params := h10
        rw [this, h8]
        rfl
      · rw [h11 q hqr]

/-- What `_send_rpc` does to the sinker count of `d` and whether the call it makes
carries the end-of-stream flag for `d`. -/
theorem send_rpc_eos {s s1 : SinkBuffer} {r : TransmitChunkInfo}
    {call : Option TransmitCall} (h : s._send_rpc r = some (s1, call)) (d : TUniqueId) :
    ((r.fragment_instance_id = d ∧ (s.params_of r).eos = true) →
      sinkers s1 d = size_dec (sinkers s d) ∧
      (is_eos_call d call = true ↔ size_dec (sinkers s d) = 0)) ∧
    (¬ (r.fragment_instance_id = d ∧ (s.params_of r).eos = true) →
      sinkers s1 d = sinkers s d ∧ is_eos_call d call = false) := by
  rw [send_rpc_cases] at h
  have hst : ∀ (t t1 : SinkBuffer) (call1 : Option TransmitCall),
      t.stamp_and_transmit r = some (t1, call1) →
      sinkers t1 d = sinkers t d ∧
      is_eos_call d call1 =
        (decide (r.fragment_instance_id = d) && (t.params_of r).eos) := by
    intro t t1 call1 ht
    obtain ⟨c, _, h1, h2⟩ := stamp_and_transmit_spec ht
    subst h1 h2
    exact ⟨rfl, rfl⟩
  by_cases he : (s.params_of r).eos = true
  · simp only [he, if_true] at h
    by_cases hd : r.fragment_instance_id = d
    · subst hd
      refine ⟨fun _ => ?_, fun hn => absurd ⟨rfl, he⟩ hn⟩
      split at h
      · rename_i hpos
        split at h
        · simp only [Option.some.injEq, Prod.mk.injEq] at h
          obtain ⟨h1, h2⟩ := h
          subst h1 h2
          refine ⟨by simp [sinkers, Assoc.lookup_set_self], ?_⟩
          simp only [is_eos_call]
          constructor
          · intro hf; cases hf
          · intro h0; omega
        · obtain ⟨h1, h2⟩ := hst _ _ _ h
          refine ⟨by rw [h1]; simp [sinkers, Assoc.lookup_set_self], ?_⟩
          rw [h2]
          constructor
          · intro hf
            simp [params_of, deref, Assoc.lookup_set_self] at hf
          · intro h0; omega
      · rename_i hpos
        obtain ⟨h1, h2⟩ := hst _ _ _ h
        refine ⟨by rw [h1]; simp [sinkers, Assoc.lookup_set_self], ?_⟩
        rw [h2]
        constructor
        · intro _; omega
        · intro _
          have : (s.params_of r).eos = true := he
          simpa [params_of, deref] using this
    · refine ⟨fun hp => absurd hp.1 hd, fun _ => ?_⟩
      have hne : d ≠ r.fragment_instance_id := fun h => hd h.symm
      split at h
      · split at h
        · simp only [Option.some.injEq, Prod.mk.injEq] at h
          obtain ⟨h1, h2⟩ := h
          subst h1 h2
          simp [sinkers, Assoc.lookup_set_ne _ _ hne, is_eos_call]
        · obtain ⟨h1, h2⟩ := hst _ _ _ h
          rw [h1, h2]
          simp [sinkers, Assoc.lookup_set_ne _ _ hne, hd]
      · obtain ⟨h1, h2⟩ := hst _ _ _ h
        rw [h1, h2]
        simp [sinkers, Assoc.lookup_set_ne _ _ hne, hd]
  · simp only [he] at h
    refine ⟨fun hp => absurd hp.2 he, fun _ => ?_⟩
    obtain ⟨h1, h2⟩ := hst _ _ _ h
    rw [h1, h2]
    simp [he]

theorem count_eos_cons (s : SinkBuffer) (d : TUniqueId) (r : TransmitChunkInfo)
    (rest : List TransmitChunkInfo) :
    count_eos s d (r :: rest) =
      (if r.fragment_instance_id = d ∧ (s.params_of r).eos = true then 1 else 0) +
        count_eos s d rest := by
  unfold count_eos
  by_cases h1 : r.fragment_instance_id = d <;> by_cases h2 : (s.params_of r).eos = true <;>
    simp [List.filter_cons, h1, h2]
  all_goals omega

theorem eos_count_cons (d : TUniqueId) (r : TransmitChunkInfo) (rest : List TransmitChunkInfo)
    (flag : Bool) (flags : List Bool) :
    eos_count d (r :: rest) (flag :: flags) =
      (if r.fragment_instance_id = d ∧ flag = true then 1 else 0) + eos_count d rest flags := by
  unfold eos_count
  by_cases h1 : r.fragment_instance_id = d <;> by_cases h2 : flag = true <;>
    simp [List.filter_cons, h1, h2]
  all_goals omega

theorem eos_count_nil (d : TUniqueId) (flags : List Bool) : eos_count d [] flags = 0 := by
  simp [eos_count]

/-- Counting over flags that are read off the requests is counting the requests. -/
theorem eos_count_map (s : SinkBuffer) (d : TUniqueId) (reqs : List TransmitChunkInfo) :
    eos_count d reqs (reqs.map (fun r => (s.params_of r).eos)) = count_eos s d reqs := by
  induction reqs with
  | nil => simp [eos_count, count_eos]
  | cons r rest ih =>
    rw [List.map_cons, eos_count_cons, count_eos_cons, ih]

theorem eos_as_read_cons {s s1 : SinkBuffer} {r : TransmitChunkInfo}
    {call : Option TransmitCall} (h : s._send_rpc r = some (s1, call))
    (rest : List TransmitChunkInfo) :
    eos_as_read s (r :: rest) = (s.params_of r).eos :: eos_as_read s1 rest := by
  simp [eos_as_read, h]

theorem size_dec_pos {m : Nat} (h1 : 1 ≤ m) (h2 : m < 18446744073709551616) :
    size_dec m = m - 1 := by
  unfold size_dec
  omega

/-- End of stream along `send_all`, with the flags as `_send_rpc` reads them, for a
destination whose sinker count covers the requests that are read with the flag. -/
theorem send_all_eos_read (d : TUniqueId) (reqs : List TransmitChunkInfo) :
    ∀ (s : SinkBuffer) (m : Nat), sinkers s d = m → m < 18446744073709551616 →
      eos_count d reqs (eos_as_read s reqs) ≤ m →
      (∀ r ∈ reqs, known s r.fragment_instance_id) →
      ∃ s1 calls, s.send_all reqs = some (s1, calls) ∧ calls.length = reqs.length ∧
        (calls.filter (is_eos_call d)).length =
          (if eos_count d reqs (eos_as_read s reqs) = m ∧ 1 ≤ m then 1 else 0) ∧
        ∀ (i : Nat) (r : TransmitChunkInfo) (flag : Bool) (call : Option TransmitCall),
          reqs[i]? = some r → (eos_as_read s reqs)[i]? = some flag → calls[i]? = some call →
          (is_eos_call d call = true ↔
            (r.fragment_instance_id = d ∧ flag = true ∧
              eos_count d (reqs.take (i + 1)) ((eos_as_read s reqs).take (i + 1)) = m)) := by
  induction reqs with
  | nil =>
    intro s m _ _ _ _
    refine ⟨s, [], rfl, rfl, ?_, ?_⟩
    · have : ¬ (eos_count d [] (eos_as_read s []) = m ∧ 1 ≤ m) := by
        rw [eos_count_nil]
        omega
      simp [this]
    · intro i r flag call hr
      simp at hr
  | cons r rest ih =>
    intro s m hm hlt hcount hknown
    obtain ⟨s1, call, hsend⟩ := send_rpc_total (hknown r (List.mem_cons_self _ _))
    have hknown1 : ∀ r' ∈ rest, known s1 r'.fragment_instance_id := fun r' hr' =>
      send_rpc_known hsend _ (hknown r' (List.mem_cons_of_mem _ hr'))
    have heos := send_rpc_eos hsend d
    rw [eos_as_read_cons hsend] at hcount ⊢
    rw [eos_count_cons] at hcount
    by_cases hP : r.fragment_instance_id = d ∧ (s.params_of r).eos = true
    · obtain ⟨hs1, hcall⟩ := heos.1 hP
      simp only [hP, and_self, if_true] at hcount
      rw [hm, size_dec_pos (by omega) hlt] at hs1 hcall
      obtain ⟨s2, calls, hrest, hlen, hfilter, hidx⟩ :=
        ih s1 (m - 1) hs1 (by omega) (by omega) hknown1
      refine ⟨s2, call :: calls, ?_, ?_, ?_, ?_⟩
      · simp [send_all, hsend, hrest]
      · simp [hlen]
      · rw [eos_count_cons]
        simp only [hP, and_self, if_true, List.filter_cons]
        by_cases hone : m - 1 = 0
        · have hc : is_eos_call d call = true := hcall.2 hone
          have hz : ¬ (eos_count d rest (eos_as_read s1 rest) = m - 1 ∧ 1 ≤ m - 1) := by omega
          have hy : 1 + eos_count d rest (eos_as_read s1 rest) = m ∧ 1 ≤ m := by omega
          simp [hc, hfilter, hz, hy]
        · have hc : ¬ is_eos_call d call = true := fun h => hone (hcall.1 h)
          by_cases hz : eos_count d rest (eos_as_read s1 rest) = m - 1 ∧ 1 ≤ m - 1
          · have hy : 1 + eos_count d rest (eos_as_read s1 rest) = m ∧ 1 ≤ m := by omega
            simp [hc, hfilter, hz, hy]
          · have hy : ¬ (1 + eos_count d rest (eos_as_read s1 rest) = m ∧ 1 ≤ m) := by omega
            simp [hc, hfilter, hz, hy]
      · intro i r' flag' call' hr' hflag' hcall'
        cases i with
        | zero =>
          simp only [List.getElem?_cons_zero, Option.some.injEq] at hr' hflag' hcall'
          subst hr' hflag' hcall'
          simp only [Nat.zero_add, List.take_succ_cons, List.take_zero, eos_count_cons, hP,
            and_self, if_true, true_and, eos_count_nil]
          rw [hcall]
          omega
        | succ j =>
          simp only [List.getElem?_cons_succ] at hr' hflag' hcall'
          rw [hidx j r' flag' call' hr' hflag' hcall']
          simp only [List.take_succ_cons, eos_count_cons, hP, and_self, if_true]
          constructor
          · rintro ⟨a, b, c⟩
            exact ⟨a, b, by omega⟩
          · rintro ⟨a, b, c⟩
            exact ⟨a, b, by omega⟩
    · obtain ⟨hs1, hcall⟩ := heos.2 hP
      simp only [hP, if_false, Nat.zero_add] at hcount
      rw [hm] at hs1
      obtain ⟨s2, calls, hrest, hlen, hfilter, hidx⟩ := ih s1 m hs1 hlt hcount hknown1
      refine ⟨s2, call :: calls, ?_, ?_, ?_, ?_⟩
      · simp [send_all, hsend, hrest]
      · simp [hlen]
      · rw [eos_count_cons]
        simp only [hP, if_false, Nat.zero_add, List.filter_cons, hcall, Bool.false_eq_true,
          hfilter]
      · intro i r' flag' call' hr' hflag' hcall'
        cases i with
        | zero =>
          simp only [List.getElem?_cons_zero, Option.some.injEq] at hr' hflag' hcall'
          subst hr' hflag' hcall'
          simp only [hcall, Bool.false_eq_true, false_iff]
          rintro ⟨a, b, _⟩
          exact hP ⟨a, b⟩
        | succ j =>
          simp only [List.getElem?_cons_succ] at hr' hflag' hcall'
          rw [hidx j r' flag' call' hr' hflag' hcall']
          simp only [List.take_succ_cons, eos_count_cons, hP, if_false, Nat.zero_add]

/-- Requests that share no object are read by `_send_rpc` with the flags they have
before the first of them is processed. -/
theorem eos_as_read_of_nodup (reqs : List TransmitChunkInfo) :
    ∀ (s : SinkBuffer), (reqs.map (fun r => r.params)).Nodup →
      (∀ r ∈ reqs, known s r.fragment_instance_id) →
      eos_as_read s reqs = reqs.map (fun r => (s.params_of r).eos) := by
  induction reqs with
  | nil =>
    intro s _ _
    rfl
  | cons r rest ih =>
    intro s hnd hknown
    obtain ⟨s1, call, hsend⟩ := send_rpc_total (hknown r (List.mem_cons_self _ _))
    have hknown1 : ∀ r' ∈ rest, known s1 r'.fragment_instance_id := fun r' hr' =>
      send_rpc_known hsend _ (hknown r' (List.mem_cons_of_mem _ hr'))
    rw [List.map_cons, List.nodup_cons] at hnd
    rw [eos_as_read_cons hsend, ih s1 hnd.2 hknown1, List.map_cons]
    congr 1
    apply List.map_congr_left
    intro r' hr'
    have hne : r'.params ≠ r.params := by
      intro heq
      apply hnd.1
      rw [← heq]
      exact List.mem_map_of_mem (fun r => r.params) hr'
    simp only [params_of]
    rw [(send_rpc_heap hsend).1 _ hne]

/-- The static form of `send_all_eos_read`: for requests that share no object, the flags
are the ones the requests have in the state in which the first of them is processed. -/
theorem send_all_eos (d : TUniqueId) (reqs : List TransmitChunkInfo) (s : SinkBuffer)
    (m : Nat) (hm : sinkers s d = m) (hlt : m < 18446744073709551616)
    (hnd : (reqs.map (fun r => r.params)).Nodup)
    (hcount : count_eos s d reqs ≤ m)
    (hknown : ∀ r ∈ reqs, known s r.fragment_instance_id) :
    ∃ s1 calls, s.send_all reqs = some (s1, calls) ∧ calls.length = reqs.length ∧
      (calls.filter (is_eos_call d)).length =
        (if count_eos s d reqs = m ∧ 1 ≤ m then 1 else 0) ∧
      ∀ (i : Nat) (r : TransmitChunkInfo) (call : Option TransmitCall),
        reqs[i]? = some r → calls[i]? = some call →
        (is_eos_call d call = true ↔
          (r.fragment_instance_id = d ∧ (s.params_of r).eos = true ∧
            count_eos s d (reqs.take (i + 1)) = m)) := by
  have hread := eos_as_read_of_nodup reqs s hnd hknown
  have hc : eos_count d reqs (eos_as_read s reqs) = count_eos s d reqs := by
    rw [hread, eos_count_map]
  obtain ⟨s1, calls, h1, h2, h3, h4⟩ :=
    send_all_eos_read d reqs s m hm hlt (by rw [hc]; exact hcount) hknown
  refine ⟨s1, calls, h1, h2, by rw [h3, hc], ?_⟩
  intro i r call hr hcall
  have hflag : (eos_as_read s reqs)[i]? = some (s.params_of r).eos := by
    rw [hread, List.getElem?_map, hr]
    rfl
  rw [h4 i r _ call hr hflag hcall, hread, ← List.map_take, eos_count_map]

/-- Clearing flags can only lower the number of end-of-stream requests. -/
theorem count_eos_mono {s s1 : SinkBuffer}
    (h : ∀ q, (s1.deref q).eos = true → (s.deref q).eos = true) (d : TUniqueId)
    (reqs : List TransmitChunkInfo) :
    count_eos s1 d reqs ≤ count_eos s d reqs := by
  induction reqs with
  | nil => simp [count_eos]
  | cons r rest ih =>
    rw [count_eos_cons, count_eos_cons]
    by_cases h1 : r.fragment_instance_id = d ∧ (s1.params_of r).eos = true
    · have h2 : r.fragment_instance_id = d ∧ (s.params_of r).eos = true := ⟨h1.1, h _ h1.2⟩
      rw [if_pos h1, if_pos h2]
      omega
    · rw [if_neg h1]
      split <;> omega

/-- The requests that `_send_rpc` reads with the flag are among those that have it in
the state in which the first of them is processed: `_send_rpc` only clears the flag. -/
theorem eos_read_le (d : TUniqueId) (reqs : List TransmitChunkInfo) :
    ∀ (s : SinkBuffer), (∀ r ∈ reqs, known s r.fragment_instance_id) →
      eos_count d reqs (eos_as_read s reqs) ≤ count_eos s d reqs := by
  induction reqs with
  | nil =>
    intro s _
    simp [eos_count]
  | cons r rest ih =>
    intro s hknown
    obtain ⟨s1, call, hsend⟩ := send_rpc_total (hknown r (List.mem_cons_self _ _))
    have hknown1 : ∀ r' ∈ rest, known s1 r'.fragment_instance_id := fun r' hr' =>
      send_rpc_known hsend _ (hknown r' (List.mem_cons_of_mem _ hr'))
    rw [eos_as_read_cons hsend, eos_count_cons, count_eos_cons]
    have h1 := ih s1 hknown1
    have h2 := count_eos_mono (send_rpc_heap hsend).2.1 d rest
    omega

/-- The two outcomes of the decrement of a `size_t`. -/
theorem size_dec_cases {c : Nat} (h : c < 18446744073709551616) :
    (c = 0 ∧ size_dec c = 18446744073709551615) ∨ (1 ≤ c ∧ size_dec c = c - 1) := by
  unfold size_dec
  omega

/-- End of stream along `send_all` for any sinker count: with fewer than `2^64` requests
read with the flag for `d`, one call with the flag is made if the sinker count is at
least one and is reached by these requests, and none otherwise. -/
theorem send_all_eos_wrap (d : TUniqueId) (reqs : List TransmitChunkInfo) :
    ∀ (s : SinkBuffer) (c : Nat), sinkers s d = c → c < 18446744073709551616 →
      eos_count d reqs (eos_as_read s reqs) < 18446744073709551616 →
      (∀ r ∈ reqs, known s r.fragment_instance_id) →
      ∃ s1 calls, s.send_all reqs = some (s1, calls) ∧ calls.length = reqs.length ∧
        (calls.filter (is_eos_call d)).length =
          (if 1 ≤ c ∧ c ≤ eos_count d reqs (eos_as_read s reqs) then 1 else 0) := by
  induction reqs with
  | nil =>
    intro s c _ _ _ _
    refine ⟨s, [], rfl, rfl, ?_⟩
    have : ¬ (1 ≤ c ∧ c ≤ eos_count d [] (eos_as_read s [])) := by
      rw [eos_count_nil]
      omega
    simp [this]
  | cons r rest ih =>
    intro s c hc hlt hcount hknown
    obtain ⟨s1, call, hsend⟩ := send_rpc_total (hknown r (List.mem_cons_self _ _))
    have hknown1 : ∀ r' ∈ rest, known s1 r'.fragment_instance_id := fun r' hr' =>
      send_rpc_known hsend _ (hknown r' (List.mem_cons_of_mem _ hr'))
    have heos := send_rpc_eos hsend d
    rw [eos_as_read_cons hsend] at hcount ⊢
    rw [eos_count_cons] at hcount
    by_cases hP : r.fragment_instance_id = d ∧ (s.params_of r).eos = true
    · obtain ⟨hs1, hcall⟩ := heos.1 hP
      simp only [hP, and_self, if_true] at hcount
      rw [hc] at hs1 hcall
      have hdec := size_dec_cases hlt
      have hdlt : size_dec c < 18446744073709551616 := by omega
      obtain ⟨s2, calls, hrest, hlen, hfilter⟩ :=
        ih s1 (size_dec c) hs1 hdlt (by omega) hknown1
      refine ⟨s2, call :: calls, ?_, ?_, ?_⟩
      · simp [send_all, hsend, hrest]
      · simp [hlen]
      · rw [eos_count_cons]
        simp only [hP, and_self, if_true, List.filter_cons]
        by_cases hone : size_dec c = 0
        · have hcl : is_eos_call d call = true := hcall.2 hone
          have hz : ¬ (1 ≤ size_dec c ∧
              size_dec c ≤ eos_count d rest (eos_as_read s1 rest)) := by omega
          have hy : 1 ≤ c ∧ c ≤ 1 + eos_count d rest (eos_as_read s1 rest) := by omega
          simp [hcl, hfilter, hz, hy]
        · have hcl : ¬ is_eos_call d call = true := fun h => hone (hcall.1 h)
          by_cases hz : 1 ≤ size_dec c ∧ size_dec c ≤ eos_count d rest (eos_as_read s1 rest)
          · have hy : 1 ≤ c ∧ c ≤ 1 + eos_count d rest (eos_as_read s1 rest) := by omega
            simp [hcl, hfilter, hz, hy]
          · have hy : ¬ (1 ≤ c ∧ c ≤ 1 + eos_count d rest (eos_as_read s1 rest)) := by omega
            simp [hcl, hfilter, hz, hy]
    · obtain ⟨hs1, hcall⟩ := heos.2 hP
      simp only [hP, if_false, Nat.zero_add] at hcount
      rw [hc] at hs1
      obtain ⟨s2, calls, hrest, hlen, hfilter⟩ := ih s1 c hs1 hlt hcount hknown1
      refine ⟨s2, call :: calls, ?_, ?_, ?_⟩
      · simp [send_all, hsend, hrest]
      · simp [hlen]
      · rw [eos_count_cons]
        simp only [hP, if_false, Nat.zero_add, List.filter_cons, hcall, Bool.false_eq_true,
          hfilter]

/-! ## Order of the calls to the transport -/

/-- A single event that shows up as a transmitted request of `d` is a call to the
transport. -/
theorem picked_singleton (d : TUniqueId) (e : Event) (k : Nat) (r : TransmitChunkInfo)
    (c : TransmitCall) (h : (picked_for d [e])[k]? = some (r, some c)) :
    k = 0 ∧ transmitted [e] = [c] := by
  cases e with
  | enqueued r' => simp [picked_for] at h
  | discarded r' => simp [picked_for] at h
  | picked r' call =>
    by_cases hd : r'.fragment_instance_id = d
    · cases k with
      | zero =>
        simp only [picked_for, List.filterMap_cons, hd, if_true, List.filterMap_nil,
          List.getElem?_cons_zero, Option.some.injEq, Prod.mk.injEq] at h
        obtain ⟨_, h2⟩ := h
        subst h2
        simp [transmitted]
      | succ k => simp [picked_for, hd] at h
    · simp [picked_for, hd] at h

/-- The requests of one destination are handed to the transport in the order in which
they were picked up. -/
theorem picked_transmitted_order (d : TUniqueId) (log : List Event) :
    (∀ (i : Nat) (r : TransmitChunkInfo) (c : TransmitCall),
      (picked_for d log)[i]? = some (r, some c) →
      ∃ a : Nat, (transmitted log)[a]? = some c) ∧
    (∀ (i j : Nat) (r1 : TransmitChunkInfo) (c1 : TransmitCall) (r2 : TransmitChunkInfo)
      (c2 : TransmitCall), i < j → (picked_for d log)[i]? = some (r1, some c1) →
      (picked_for d log)[j]? = some (r2, some c2) →
      ∃ a b : Nat, a < b ∧ (transmitted log)[a]? = some c1 ∧ (transmitted log)[b]? = some c2) := by
  induction log using List.reverseRecOn with
  | nil =>
    constructor
    · intro i r c h
      simp [picked_for] at h
    · intro i j r1 c1 r2 c2 _ h
      simp [picked_for] at h
  | append_singleton log e ih =>
    obtain ⟨ih1, ih2⟩ := ih
    have hP : picked_for d (log ++ [e]) = picked_for d log ++ picked_for d [e] := by
      simp [picked_for, List.filterMap_append]
    have hT : transmitted (log ++ [e]) = transmitted log ++ transmitted [e] := by
      simp [transmitted, List.filterMap_append]
    have hold : ∀ (a : Nat) (c : TransmitCall), (transmitted log)[a]? = some c →
        a < (transmitted log).length ∧ (transmitted (log ++ [e]))[a]? = some c := by
      intro a c ha
      have hlt : a < (transmitted log).length := by
        by_contra hge
        rw [List.getElem?_eq_none (Nat.le_of_not_lt hge)] at ha
        simp at ha
      exact ⟨hlt, by rw [hT, List.getElem?_append_left hlt, ha]⟩
    have hnew : ∀ (k : Nat) (r : TransmitChunkInfo) (c : TransmitCall),
        (picked_for d log).length ≤ k →
        (picked_for d (log ++ [e]))[k]? = some (r, some c) →
        (transmitted (log ++ [e]))[(transmitted log).length]? = some c := by
      intro k r c hk h
      rw [hP, List.getElem?_append_right hk] at h
      obtain ⟨_, h2⟩ := picked_singleton d e _ r c h
      rw [hT, h2, List.getElem?_append_right (Nat.le_refl _)]
      simp
    constructor
    · intro i r c h
      by_cases hi : i < (picked_for d log).length
      · rw [hP, List.getElem?_append_left hi] at h
        obtain ⟨a, ha⟩ := ih1 i r c h
        exact ⟨a, (hold a c ha).2⟩
      · exact ⟨_, hnew i r c (Nat.le_of_not_lt hi) h⟩
    · intro i j r1 c1 r2 c2 hij h1 h2
      by_cases hj : j < (picked_for d log).length
      · have hi : i < (picked_for d log).length := by omega
        rw [hP, List.getElem?_append_left hi] at h1
        rw [hP, List.getElem?_append_left hj] at h2
        obtain ⟨a, b, hab, ha, hb⟩ := ih2 i j r1 c1 r2 c2 hij h1 h2
        exact ⟨a, b, hab, (hold a c1 ha).2, (hold b c2 hb).2⟩
      · have hjge := Nat.le_of_not_lt hj
        have hb := hnew j r2 c2 hjge h2
        have hj0 : j = (picked_for d log).length := by
          have h2' := h2
          rw [hP, List.getElem?_append_right hjge] at h2'
          have := (picked_singleton d e _ r2 c2 h2').1
          omega
        have hi : i < (picked_for d log).length := by omega
        rw [hP, List.getElem?_append_left hi] at h1
        obtain ⟨a, ha⟩ := ih1 i r1 c1 h1
        exact ⟨a, _, (hold a c1 ha).1, (hold a c1 ha).2, hb⟩

/-! ## The claims -/

/-- Two requests that share one object, both submitted for end of stream with a chunk
to a destination with two sinkers: the first call clears the flag of the shared object,
the second request is read without it, and no call carries the flag. -/
theorem shared_object_loses_end_of_stream :
    ∃ s1 p1 p2,
      eos_state.send_all [sample_request dest_a 100, sample_request dest_a 100] =
        some (s1, [some p1, some p2]) ∧
      p1.params.eos = false ∧ p2.params.eos = false ∧ sinkers s1 dest_a = 1 ∧
      eos_as_read eos_state [sample_request dest_a 100, sample_request dest_a 100] =
        [true, false] :=
  ⟨_, _, _, rfl, rfl, rfl, rfl, rfl⟩

/-- C1. Exactly-once end of stream: when destination `d` has `N ≥ 1` sinkers left and
exactly `N` of the requests handed to `_send_rpc` are for `d` and have the
end-of-stream flag set when `_send_rpc` reads it, every request is processed, exactly
one call made for `d` carries the flag, and it is the call made for the `N`-th of these
requests. For requests no two of which share an object, the flags read are the flags
the requests have before the first of them is processed, and the same holds with the
end-of-stream requests counted in that state. -/
theorem exactly_once_end_of_stream (s : SinkBuffer) (d : TUniqueId) (N : Nat)
    (reqs : List TransmitChunkInfo) (hN : 1 ≤ N)
    (hs : Assoc.lookup d s._num_sinkers_per_dest_instance = some N)
    (hsize : N < 18446744073709551616)
    (hknown : ∀ r ∈ reqs, known s r.fragment_instance_id) :
    (eos_count d reqs (eos_as_read s reqs) = N →
      ∃ s1 calls, s.send_all reqs = some (s1, calls) ∧ calls.length = reqs.length ∧
        (calls.filter (is_eos_call d)).length = 1 ∧
        ∀ (i : Nat) (r : TransmitChunkInfo) (flag : Bool) (call : Option TransmitCall),
          reqs[i]? = some r → (eos_as_read s reqs)[i]? = some flag → calls[i]? = some call →
          (is_eos_call d call = true ↔
            (r.fragment_instance_id = d ∧ flag = true ∧
              eos_count d (reqs.take (i + 1)) ((eos_as_read s reqs).take (i + 1)) = N))) ∧
    ((reqs.map (fun r => r.params)).Nodup → count_eos s d reqs = N →
      ∃ s1 calls, s.send_all reqs = some (s1, calls) ∧ calls.length = reqs.length ∧
        (calls.filter (is_eos_call d)).length = 1 ∧
        ∀ (i : Nat) (r : TransmitChunkInfo) (call : Option TransmitCall),
          reqs[i]? = some r → calls[i]? = some call →
          (is_eos_call d call = true ↔
            (r.fragment_instance_id = d ∧ (s.params_of r).eos = true ∧
              count_eos s d (reqs.take (i + 1)) = N))) := by
  have hm : sinkers s d = N := by simp [sinkers, hs]
  constructor
  · intro hcount
    obtain ⟨s1, calls, h1, h2, h3, h4⟩ :=
      send_all_eos_read d reqs s N hm hsize (Nat.le_of_eq hcount) hknown
    refine ⟨s1, calls, h1, h2, ?_, h4⟩
    rw [h3]
    simp [hcount, hN]
  · intro hnd hcount
    obtain ⟨s1, calls, h1, h2, h3, h4⟩ :=
      send_all_eos d reqs s N hm hsize hnd (Nat.le_of_eq hcount) hknown
    refine ⟨s1, calls, h1, h2, ?_, h4⟩
    rw [h3]
    simp [hcount, hN]

theorem exactly_once_end_of_stream_witness :
    (∃ s1 calls, eos_state.send_all shared_requests = some (s1, calls) ∧
      calls.length = shared_requests.length ∧
      (calls.filter (is_eos_call dest_a)).length = 1 ∧
      ∀ (i : Nat) (r : TransmitChunkInfo) (flag : Bool) (call : Option TransmitCall),
        shared_requests[i]? = some r →
        (eos_as_read eos_state shared_requests)[i]? = some flag → calls[i]? = some call →
        (is_eos_call dest_a call = true ↔
          (r.fragment_instance_id = dest_a ∧ flag = true ∧
            eos_count dest_a (shared_requests.take (i + 1))
              ((eos_as_read eos_state shared_requests).take (i + 1)) = 2))) ∧
    (∃ s1 calls, eos_state.send_all distinct_requests = some (s1, calls) ∧
      calls.length = distinct_requests.length ∧
      (calls.filter (is_eos_call dest_a)).length = 1 ∧
      ∀ (i : Nat) (r : TransmitChunkInfo) (call : Option TransmitCall),
        distinct_requests[i]? = some r → calls[i]? = some call →
        (is_eos_call dest_a call = true ↔
          (r.fragment_instance_id = dest_a ∧ (eos_state.params_of r).eos = true ∧
            count_eos eos_state dest_a (distinct_requests.take (i + 1)) = 2))) :=
  ⟨(exactly_once_end_of_stream eos_state dest_a 2 shared_requests (by decide) (by decide)
      (by decide)
      (by
        intro r hr
        simp only [shared_requests, List.mem_cons, List.mem_singleton, List.not_mem_nil,
          or_false] at hr
        rcases hr with h | h | h <;> subst h <;> exact ⟨_, rfl⟩)).1 (by decide),
   (exactly_once_end_of_stream eos_state dest_a 2 distinct_requests (by decide) (by decide)
      (by decide)
      (by
        intro r hr
        simp only [distinct_requests, List.mem_cons, List.mem_singleton, List.not_mem_nil,
          or_false] at hr
        rcases hr with h | h | h <;> subst h <;> exact ⟨_, rfl⟩)).2 (by decide) (by decide)⟩

/-- C2, as stated, fails: with two destinations the first call made for the second
destination carries the sequence number 1, not 0. -/
theorem per_destination_numbering_counterexample :
    ∃ s log call,
      sample_buffer.run []
        [Action.make_params 100 (sample_params dest_a false 1),
         Action.make_params 101 (sample_params dest_b false 1),
         Action.add_request (sample_request dest_a 100),
         Action.add_request (sample_request dest_b 101),
         Action.process_buffer dest_a, Action.process_buffer dest_b] = some (s, log) ∧
      (calls_to dest_b (transmitted log))[0]? = some call ∧
      call.params.sequence = some 1 ∧ call.params.sequence ≠ some 0 :=
  ⟨_, _, _, rfl, rfl, rfl, by decide⟩

/-- C2, amended. The sequence numbers come from one counter shared by all
destinations: along every run from the constructed state, while the counter stays in
the range of `int64_t`, the call that is the `k`-th call for its destination carries
`k` plus the number of calls made before it for other destinations. -/
theorem shared_sequence_numbering (dests : List TPlanFragmentDestination) (n : Nat)
    (acts : List Action) (s : SinkBuffer) (log : List Event)
    (hlen : (acts.length : Int) < 9223372036854775808)
    (hrun : (new dests n).run [] acts = some (s, log)) :
    ∀ (i : Nat) (call : TransmitCall), (transmitted log)[i]? = some call →
      call.params.sequence =
        some (((calls_to call.fragment_instance_id ((transmitted log).take i)).length : Int) +
          ((calls_elsewhere call.fragment_instance_id ((transmitted log).take i)).length : Int)) := by
  intro i call hi
  have hq := run_seq_ok hrun (by simpa [transmitted] using hlen) (fresh_seq_ok (new_fresh dests n))
  rw [hq.2 i call hi]
  have hlt : i < (transmitted log).length := by
    by_contra hge
    rw [List.getElem?_eq_none (Nat.le_of_not_lt hge)] at hi
    simp at hi
  have hsplit : ∀ (p : TransmitCall → Bool) (l : List TransmitCall),
      (l.filter p).length + (l.filter (fun c => !p c)).length = l.length := by
    intro p l
    induction l with
    | nil => rfl
    | cons c l ih =>
      cases hp : p c <;> simp [List.filter_cons, hp] <;> omega
  have h1 := hsplit (fun c => decide (c.fragment_instance_id = call.fragment_instance_id))
    ((transmitted log).take i)
  have h2 : ((transmitted log).take i).length = i := by
    rw [List.length_take]
    omega
  simp only [calls_to, calls_elsewhere]
  congr 1
  omega

theorem shared_sequence_numbering_witness :
    ∃ s log, sample_buffer.run [] sample_actions = some (s, log) ∧
      ∀ (i : Nat) (call : TransmitCall), (transmitted log)[i]? = some call →
        call.params.sequence =
          some (((calls_to call.fragment_instance_id ((transmitted log).take i)).length : Int) +
            ((calls_elsewhere call.fragment_instance_id
              ((transmitted log).take i)).length : Int)) :=
  ⟨_, _, rfl, shared_sequence_numbering sample_destinations 1 sample_actions _ _ (by decide) rfl⟩

/-- C3. Ordering: along every run from the constructed state, the requests of a
destination `d` are picked up in the order in which `add_request` enqueued them (what
was enqueued is what was picked up followed by what is still queued), and of two
requests of `d` that were both handed to the transport, the one enqueued first was
handed over first and carries the smaller sequence number. -/
theorem fifo_ordering (dests : List TPlanFragmentDestination) (n : Nat)
    (acts : List Action) (s : SinkBuffer) (log : List Event) (d : TUniqueId)
    (hlen : (acts.length : Int) < 9223372036854775808)
    (hrun : (new dests n).run [] acts = some (s, log)) :
    enqueued_for d log =
      (picked_for d log).map Prod.fst ++ (Assoc.lookup d s._buffers).getD [] ∧
    ∀ (i j : Nat) (r1 : TransmitChunkInfo) (c1 : TransmitCall) (r2 : TransmitChunkInfo)
      (c2 : TransmitCall), i < j →
      (picked_for d log)[i]? = some (r1, some c1) →
      (picked_for d log)[j]? = some (r2, some c2) →
      ∃ a b : Nat, a < b ∧ (transmitted log)[a]? = some c1 ∧
        (transmitted log)[b]? = some c2 ∧
        c1.params.sequence = some (a : Int) ∧ c2.params.sequence = some (b : Int) := by
  have hf := new_fresh dests n
  obtain ⟨_, _, hfifo⟩ := run_inv hrun (fresh_closures_ok hf) (fresh_buffers_keyed hf)
    (fresh_fifo_ok hf)
  have hq := run_seq_ok hrun (by simpa [transmitted] using hlen) (fresh_seq_ok hf)
  refine ⟨hfifo d, ?_⟩
  intro i j r1 c1 r2 c2 hij h1 h2
  obtain ⟨a, b, hab, ha, hb⟩ := (picked_transmitted_order d log).2 i j r1 c1 r2 c2 hij h1 h2
  exact ⟨a, b, hab, ha, hb, hq.2 a c1 ha, hq.2 b c2 hb⟩

theorem fifo_ordering_witness :
    ∃ s log c1 c2, sample_buffer.run [] fifo_actions = some (s, log) ∧
      enqueued_for dest_a log = [sample_request dest_a 100, sample_request dest_a 102] ∧
      picked_for dest_a log =
        [(sample_request dest_a 100, some c1), (sample_request dest_a 102, some c2)] ∧
      (Assoc.lookup dest_a s._buffers).getD [] = [] ∧
      c1.params.chunks.length = 1 ∧ c2.params.chunks.length = 2 ∧
      ∃ a b : Nat, a < b ∧ (transmitted log)[a]? = some c1 ∧
        (transmitted log)[b]? = some c2 ∧
        c1.params.sequence = some (a : Int) ∧ c2.params.sequence = some (b : Int) :=
  ⟨_, _, _, _, rfl, rfl, rfl, rfl, rfl, rfl,
    (fifo_ordering sample_destinations 1 fifo_actions _ _ dest_a (by decide) rfl).2 0 1 _ _ _ _
      (by decide) rfl rfl⟩

/-- The method `is_finished` agrees with the condition of the spec in every state whose
in-flight counter is not negative. -/
theorem is_finished_of_nonneg (s : SinkBuffer) (h : 0 ≤ s._in_flight_rpc_num) :
    s.is_finished = true ↔ is_finished_spec s := by
  have hclos : s._closures.any (fun e => e.2.has_in_flight_rpc) = true ↔
      ¬ ∀ e ∈ s._closures, e.2.has_in_flight_rpc = false := by
    rw [List.any_eq_true]
    constructor
    · rintro ⟨e, he, hfl⟩ hall
      rw [hall e he] at hfl
      cases hfl
    · intro hn
      by_contra hex
      apply hn
      intro e he
      by_contra hne
      exact hex ⟨e, he, by simpa using hne⟩
  have hbuf : s._buffers.any (fun e => !e.2.isEmpty) = true ↔
      ¬ ∀ e ∈ s._buffers, e.2 = [] := by
    rw [List.any_eq_true]
    constructor
    · rintro ⟨e, he, hfl⟩ hall
      rw [hall e he] at hfl
      simp at hfl
    · intro hn
      by_contra hex
      apply hn
      intro e he
      by_contra hne
      apply hex
      refine ⟨e, he, ?_⟩
      cases hq : e.2 with
      | nil => exact absurd hq hne
      | cons x xs => rfl
  unfold is_finished is_finished_spec
  split_ifs with a b c d
  · simp [a]
  · have : s._in_flight_rpc_num ≠ 0 := by omega
    simp [a, this]
  · have := hclos.mp c
    simp only [Bool.false_eq_true, false_iff, not_or, not_and]
    exact ⟨a, fun _ hall => absurd hall this⟩
  · have := hbuf.mp d
    simp only [Bool.false_eq_true, false_iff, not_or, not_and]
    exact ⟨a, fun _ _ hall => absurd hall this⟩
  · have h0 : s._in_flight_rpc_num = 0 := by omega
    have h1 : ∀ e ∈ s._closures, e.2.has_in_flight_rpc = false := by
      by_contra hn
      exact c (hclos.mpr hn)
    have h2 : ∀ e ∈ s._buffers, e.2 = [] := by
      by_contra hn
      exact d (hbuf.mpr hn)
    simp only [true_iff]
    exact Or.inr ⟨h0, h1, h2⟩

/-- The in-flight counter of a reachable state is the number of submissions that have
not completed. -/
theorem reachable_counter_ok {dests : List TPlanFragmentDestination} {n : Nat}
    {acts : List Action} {s : SinkBuffer} {log : List Event}
    (hdests : dests.length < 2147483648)
    (hrun : (new dests n).run [] acts = some (s, log)) :
    counter_ok s ∧ closures_ok s ∧ s._closures.length < 2147483648 := by
  have hf := new_fresh dests n
  have hl := new_closures_length dests n
  obtain ⟨h1, h2, h3⟩ := run_counter_ok hrun (by omega) (fresh_closures_ok hf)
    (fresh_counter_ok hf)
  exact ⟨h1, h2, by omega⟩

/-- C4. The method `is_finished` returns true exactly when the sink buffer is cancelled,
or the in-flight count is zero, no closure has an RPC in flight and every queue is
empty: in every state whose in-flight counter is not negative, and so in every state
the dispatcher reaches from its construction. -/
theorem is_finished_characterisation (s : SinkBuffer) :
    (0 ≤ s._in_flight_rpc_num → (s.is_finished = true ↔ is_finished_spec s)) ∧
    (∀ (dests : List TPlanFragmentDestination) (n : Nat) (acts : List Action)
      (log : List Event), dests.length < 2147483648 →
      (new dests n).run [] acts = some (s, log) →
      (s.is_finished = true ↔ is_finished_spec s)) := by
  refine ⟨is_finished_of_nonneg s, ?_⟩
  intro dests n acts log hd hrun
  apply is_finished_of_nonneg
  have h := (reachable_counter_ok hd hrun).1
  unfold counter_ok at h
  omega

theorem is_finished_characterisation_witness :
    ∃ s log, sample_buffer.run [] sample_actions = some (s, log) ∧
      s.is_finished = false ∧ ¬ is_finished_spec s ∧
      (sample_buffer.is_finished = true ∧ is_finished_spec sample_buffer) :=
  ⟨_, _, rfl, by decide,
    fun h => absurd (((is_finished_characterisation _).2 sample_destinations 1 sample_actions _
      (by decide) rfl).2 h) (by decide),
    by decide,
    ((is_finished_characterisation sample_buffer).1 (by decide)).1 (by decide)⟩

/-- C5. Backpressure threshold: `is_full` returns true exactly when some queue is
longer than the watermark, and false exactly when every queue has at most the length
of the watermark. -/
theorem is_full_iff (pipeline_io_buffer_size : Nat) (s : SinkBuffer) :
    (s.is_full pipeline_io_buffer_size = true ↔
      ∃ e ∈ s._buffers, pipeline_io_buffer_size < e.2.length) ∧
    (s.is_full pipeline_io_buffer_size = false ↔
      ∀ e ∈ s._buffers, e.2.length ≤ pipeline_io_buffer_size) := by
  have h1 : s.is_full pipeline_io_buffer_size = true ↔
      ∃ e ∈ s._buffers, pipeline_io_buffer_size < e.2.length := by
    unfold is_full
    simp [List.any_eq_true]
  refine ⟨h1, ?_⟩
  rw [← Bool.not_eq_true, h1]
  simp

/-- C6. Single flight per destination: in every state reached from the constructed
state, every closure has at most one submission that has not completed, and a step of
the scan loop hands a request to the transport only when the closure of its
destination has no RPC in flight. -/
theorem single_flight (dests : List TPlanFragmentDestination) (n : Nat)
    (acts : List Action) (s : SinkBuffer) (log : List Event)
    (hrun : (new dests n).run [] acts = some (s, log)) :
    (∀ e ∈ s._closures, e.2.outstanding ≤ 1) ∧
    (∀ (key : TUniqueId) (s1 : SinkBuffer) (events : List Event) (r : TransmitChunkInfo)
      (call : TransmitCall), s.step (Action.process_buffer key) = some (s1, events) →
      Event.picked r (some call) ∈ events →
      ∃ c, Assoc.lookup call.fragment_instance_id s._closures = some c ∧
        c.has_in_flight_rpc = false ∧
        Assoc.lookup call.fragment_instance_id s1._closures = some c.ref ∧
        c.ref.outstanding = 1) := by
  have hf := new_fresh dests n
  obtain ⟨hc, _, _⟩ := run_inv hrun (fresh_closures_ok hf) (fresh_buffers_keyed hf)
    (fresh_fifo_ok hf)
  constructor
  · intro e he
    have := hc e he
    simp only [CallBackClosure.outstanding]
    omega
  · intro key s1 events r call hstep hmem
    rcases step_process_buffer_spec hstep with ⟨_, h2⟩ | ⟨front, rest, c, call', s2, h2, _, hcl, hfl, hs, h1⟩
    · subst h2
      simp at hmem
    · subst h2
      simp only [List.mem_singleton, Event.picked.injEq] at hmem
      obtain ⟨h3, h4⟩ := hmem
      subst h3 h4
      rcases send_rpc_spec hs with ⟨h5, _⟩ | ⟨c', p, h5, hc2, h6, _, _, _, h7, _⟩
      · simp at h5
      · simp only [Option.some.injEq] at h5
        subst h5
        rw [hcl] at hc2
        cases hc2
        have hb : 1 ≤ c.refs ∧ c.refs ≤ 2 := hc _ (Assoc.mem_of_lookup hcl)
        simp only [CallBackClosure.has_in_flight_rpc, decide_eq_false_iff_not, not_lt] at hfl
        refine ⟨c, by rw [h7]; exact hcl, ?_, ?_, ?_⟩
        · simp only [CallBackClosure.has_in_flight_rpc, decide_eq_false_iff_not, not_lt]
          exact hfl
        · subst h1
          simp only [h6, h7]
          exact Assoc.lookup_set_self _ _ _
        · simp only [CallBackClosure.outstanding, CallBackClosure.ref]
          omega

theorem single_flight_witness :
    ∃ s log, sample_buffer.run [] sample_actions = some (s, log) ∧
      (∀ e ∈ s._closures, e.2.outstanding ≤ 1) ∧
      (∀ (key : TUniqueId) (s1 : SinkBuffer) (events : List Event) (r : TransmitChunkInfo)
        (call : TransmitCall), s.step (Action.process_buffer key) = some (s1, events) →
        Event.picked r (some call) ∈ events →
        ∃ c, Assoc.lookup call.fragment_instance_id s._closures = some c ∧
          c.has_in_flight_rpc = false ∧
          Assoc.lookup call.fragment_instance_id s1._closures = some c.ref ∧
          c.ref.outstanding = 1) :=
  ⟨_, _, rfl, single_flight sample_destinations 1 sample_actions _ _ rfl⟩

/-- C7. Sticky cancellation: once `is_cancelled` is true it is true after every further
sequence of actions (calls of `add_request`, steps of the scan loop, completions that
succeed or fail, the begin of the shutdown); `is_full` and `is_finished` read the
state without changing it. -/
theorem cancelled_is_sticky (s s1 : SinkBuffer) (log log1 : List Event) (acts : List Action)
    (hc : s.is_cancelled = true) (hrun : s.run log acts = some (s1, log1)) :
    s1.is_cancelled = true := by
  induction acts generalizing s log with
  | nil =>
    simp only [run, Option.some.injEq, Prod.mk.injEq] at hrun
    rw [← hrun.1]
    exact hc
  | cons a acts ih =>
    obtain ⟨s2, events, hs, hr⟩ := run_cons hrun
    exact ih s2 (log ++ events) (step_cancelled hs hc) hr

theorem cancelled_is_sticky_witness :
    ∃ s1 log1,
      ({ sample_buffer with _is_cancelled := true } : SinkBuffer).run [] sample_actions =
        some (s1, log1) ∧
      s1.is_cancelled = true :=
  ⟨_, _, rfl,
    cancelled_is_sticky { sample_buffer with _is_cancelled := true } _ [] _ sample_actions
      (by rfl) (by rfl)⟩

/-- C8. Completion handling: both handlers lower `_in_flight_rpc_num` by exactly one
(for every counter above the least `int32_t`, and so whenever a completion happens in
a state reached from the constructed one, where the counter is at least one); the
failure handler sets the cancellation flag, the success handler sets it when the
status is not ok and keeps it when the status is ok; neither handler changes a queue,
a sinker count or the sequence counter. -/
theorem completion_handlers (s : SinkBuffer) (result : PTransmitChunkResult) :
    ((-2147483648 < s._in_flight_rpc_num ∧ s._in_flight_rpc_num < 2147483648) →
      s.failed_handler._in_flight_rpc_num = s._in_flight_rpc_num - 1 ∧
      (s.success_handler result)._in_flight_rpc_num = s._in_flight_rpc_num - 1) ∧
    s.failed_handler._is_cancelled = true ∧
    (result.status.is_ok = false → (s.success_handler result)._is_cancelled = true) ∧
    (result.status.is_ok = true →
      (s.success_handler result)._is_cancelled = s._is_cancelled) ∧
    (s.failed_handler._buffers = s._buffers ∧
      s.failed_handler._num_sinkers_per_dest_instance = s._num_sinkers_per_dest_instance ∧
      s.failed_handler._request_seq = s._request_seq) ∧
    ((s.success_handler result)._buffers = s._buffers ∧
      (s.success_handler result)._num_sinkers_per_dest_instance =
        s._num_sinkers_per_dest_instance ∧
      (s.success_handler result)._request_seq = s._request_seq) ∧
    (∀ (dests : List TPlanFragmentDestination) (n : Nat) (acts : List Action)
      (log : List Event) (dest : TUniqueId) (a : Action) (s1 : SinkBuffer)
      (events : List Event), dests.length < 2147483648 →
      (new dests n).run [] acts = some (s, log) →
      (a = Action.rpc_failed dest ∨ a = Action.rpc_success dest result) →
      s.step a = some (s1, events) →
      1 ≤ s._in_flight_rpc_num ∧ s._in_flight_rpc_num < 2147483648 ∧
      s1._in_flight_rpc_num = s._in_flight_rpc_num - 1) := by
  have hsucc := success_handler_closures s result
  refine ⟨?_, rfl, ?_, ?_, ⟨rfl, rfl, rfl⟩, ⟨hsucc.2.1, hsucc.2.2.2.1, hsucc.2.2.1⟩, ?_⟩
  · rintro ⟨h1, h2⟩
    constructor
    · simp only [failed_handler]
      exact wrap32_of_range (by omega) (by omega)
    · rw [hsucc.2.2.2.2.2]
      exact wrap32_of_range (by omega) (by omega)
  · intro hok
    simp [success_handler, hok]
  · intro hok
    simp [success_handler, hok]
  · intro dests n acts log dest a s1 events hd hrun ha hstep
    obtain ⟨hn, hc, hl⟩ := reachable_counter_ok hd hrun
    have hle := total_outstanding_le hc
    have hpos : 1 ≤ total_outstanding s := by
      have hex : ∃ c, Assoc.lookup dest s._closures = some c ∧ c.has_in_flight_rpc = true := by
        rcases ha with ha | ha
        · obtain ⟨_, c, h1, h2, _⟩ := (step_completion_spec hstep).2 dest ha
          exact ⟨c, h1, h2⟩
        · obtain ⟨_, c, h1, h2, _⟩ := (step_completion_spec hstep).1 dest result ha
          exact ⟨c, h1, h2⟩
      obtain ⟨c, h1, h2⟩ := hex
      simp only [CallBackClosure.has_in_flight_rpc, decide_eq_true_eq] at h2
      have hsum := Assoc.sum_set CallBackClosure.outstanding c.unref s._closures h1
      simp only [CallBackClosure.outstanding, CallBackClosure.unref] at hsum
      simp only [total_outstanding, CallBackClosure.outstanding]
      omega
    unfold counter_ok at hn
    refine ⟨by omega, by omega, ?_⟩
    rcases ha with ha | ha
    · obtain ⟨_, c, _, _, h3⟩ := (step_completion_spec hstep).2 dest ha
      rw [h3]
      simp only [failed_handler]
      exact wrap32_of_range (by omega) (by omega)
    · obtain ⟨_, c, _, _, h3⟩ := (step_completion_spec hstep).1 dest result ha
      rw [h3]
      simp only [hsucc.2.2.2.2.2]
      exact wrap32_of_range (by omega) (by omega)

theorem completion_handlers_witness :
    (sample_state.failed_handler._in_flight_rpc_num = sample_state._in_flight_rpc_num - 1 ∧
      (sample_state.success_handler { status := { is_ok := false, message := "x" } })._in_flight_rpc_num
        = sample_state._in_flight_rpc_num - 1) ∧
    (sample_state.success_handler { status := { is_ok := false, message := "x" } })._is_cancelled
      = true ∧
    ∃ s1 events, sample_state.step (Action.rpc_failed dest_b) = some (s1, events) ∧
      1 ≤ sample_state._in_flight_rpc_num ∧ sample_state._in_flight_rpc_num < 2147483648 ∧
      s1._in_flight_rpc_num = sample_state._in_flight_rpc_num - 1 :=
  ⟨(completion_handlers sample_state _).1 (by decide),
   (completion_handlers sample_state _).2.2.1 rfl,
   _, _, rfl,
   (completion_handlers sample_state { status := { is_ok := false, message := "x" } }).2.2.2.2.2.2
     sample_destinations 1 sample_actions _ dest_b (Action.rpc_failed dest_b) _ _ (by decide)
     (by rfl) (Or.inl rfl) (by rfl)⟩

/-- C9. Post-shutdown discard: once `_is_finished` is set, `add_request` returns, every
queue, the sinker counts, the sequence counter, the in-flight counter, the closures
and both flags are unchanged, and all it does is release the `finst_id` of the object
of the request (every other object is left as it is). -/
theorem add_request_after_shutdown (s : SinkBuffer) (request : TransmitChunkInfo)
    (h : s._is_finished = true) :
    s.add_request request =
      { s with
        heap := Assoc.set request.params (s.params_of request).release_finst_id s.heap } ∧
    ((s.add_request request)._buffers = s._buffers ∧
      (s.add_request request)._num_sinkers_per_dest_instance =
        s._num_sinkers_per_dest_instance ∧
      (s.add_request request)._request_seq = s._request_seq ∧
      (s.add_request request)._in_flight_rpc_num = s._in_flight_rpc_num ∧
      (s.add_request request)._is_cancelled = s._is_cancelled ∧
      (s.add_request request)._closures = s._closures ∧
      (s.add_request request)._is_finished = s._is_finished) ∧
    (s.add_request request).params_of request = (s.params_of request).release_finst_id ∧
    (∀ q, q ≠ request.params → (s.add_request request).deref q = s.deref q) ∧
    s.step (Action.add_request request) =
      some (s.add_request request, [Event.discarded request]) := by
  have hst := add_request_state s request
  rw [if_pos h] at hst
  refine ⟨hst, ?_, ?_, ?_, ?_⟩
  · rw [hst]
    exact ⟨rfl, rfl, rfl, rfl, rfl, rfl, rfl⟩
  · rw [hst]
    simp [params_of, deref, Assoc.lookup_set_self]
  · intro q hq
    rw [hst]
    simp [deref, Assoc.lookup_set_ne _ _ hq]
  · simp [step, h]

theorem add_request_after_shutdown_witness :
    (shutdown_state.add_request (sample_request dest_a 100))._buffers =
      shutdown_state._buffers ∧
    (shutdown_state.params_of (sample_request dest_a 100)).finst_id = some dest_a ∧
    ((shutdown_state.add_request (sample_request dest_a 100)).params_of
      (sample_request dest_a 100)).finst_id = none ∧
    shutdown_state.step (Action.add_request (sample_request dest_a 100)) =
      some (shutdown_state.add_request (sample_request dest_a 100),
        [Event.discarded (sample_request dest_a 100)]) :=
  ⟨(add_request_after_shutdown shutdown_state (sample_request dest_a 100) rfl).2.1.1,
   rfl,
   by
    rw [(add_request_after_shutdown shutdown_state (sample_request dest_a 100) rfl).2.2.1]
    rfl,
   (add_request_after_shutdown shutdown_state (sample_request dest_a 100) rfl).2.2.2.2⟩

/-- C10. Enqueue and frame of `add_request`: while `_is_finished` is not set, a request
whose destination has a queue is appended at the back of that queue, the queues of all
other destinations, the set of destinations, the sinker counts, the sequence counter,
the in-flight counter, the closures and both flags are unchanged, and the objects of
the requests are left as they are. -/
theorem add_request_enqueues (s : SinkBuffer) (request : TransmitChunkInfo)
    (q : List TransmitChunkInfo) (h : s._is_finished = false)
    (hq : Assoc.lookup request.fragment_instance_id s._buffers = some q) :
    Assoc.lookup request.fragment_instance_id (s.add_request request)._buffers =
      some (q ++ [request]) ∧
    (∀ d, d ≠ request.fragment_instance_id →
      Assoc.lookup d (s.add_request request)._buffers = Assoc.lookup d s._buffers) ∧
    Assoc.keys (s.add_request request)._buffers = Assoc.keys s._buffers ∧
    (s.add_request request)._num_sinkers_per_dest_instance =
      s._num_sinkers_per_dest_instance ∧
    (s.add_request request)._request_seq = s._request_seq ∧
    (s.add_request request)._in_flight_rpc_num = s._in_flight_rpc_num ∧
    (s.add_request request)._is_cancelled = s._is_cancelled ∧
    (s.add_request request)._closures = s._closures ∧
    (s.add_request request)._is_finished = s._is_finished ∧
    (s.add_request request).heap = s.heap := by
  have hst : s.add_request request =
      { s with
        _buffers := Assoc.set request.fragment_instance_id (q ++ [request]) s._buffers } := by
    simp [add_request, h, hq]
  rw [hst]
  refine ⟨Assoc.lookup_set_self _ _ _, ?_, Assoc.keys_set_of_lookup _ _ hq, rfl, rfl, rfl, rfl,
    rfl, rfl, rfl⟩
  intro d hd
  exact Assoc.lookup_set_ne _ _ hd

theorem add_request_enqueues_witness :
    Assoc.lookup dest_a (sample_buffer.add_request (sample_request dest_a 100))._buffers =
      some ([] ++ [sample_request dest_a 100]) ∧
    (∀ d, d ≠ dest_a →
      Assoc.lookup d (sample_buffer.add_request (sample_request dest_a 100))._buffers =
        Assoc.lookup d sample_buffer._buffers) ∧
    Assoc.keys (sample_buffer.add_request (sample_request dest_a 100))._buffers =
      Assoc.keys sample_buffer._buffers ∧
    (sample_buffer.add_request (sample_request dest_a 100))._num_sinkers_per_dest_instance =
      sample_buffer._num_sinkers_per_dest_instance ∧
    (sample_buffer.add_request (sample_request dest_a 100))._request_seq =
      sample_buffer._request_seq ∧
    (sample_buffer.add_request (sample_request dest_a 100))._in_flight_rpc_num =
      sample_buffer._in_flight_rpc_num ∧
    (sample_buffer.add_request (sample_request dest_a 100))._is_cancelled =
      sample_buffer._is_cancelled ∧
    (sample_buffer.add_request (sample_request dest_a 100))._closures =
      sample_buffer._closures ∧
    (sample_buffer.add_request (sample_request dest_a 100))._is_finished =
      sample_buffer._is_finished ∧
    (sample_buffer.add_request (sample_request dest_a 100)).heap = sample_buffer.heap :=
  add_request_enqueues sample_buffer (sample_request dest_a 100) [] (by decide) (by decide)

/-- The payload of a call made by `stamp_and_transmit` is the object of the request
with the sequence number stamped on it. -/
theorem stamp_and_transmit_payload {t t1 : SinkBuffer} {r : TransmitChunkInfo}
    {p : TransmitCall} (h : t.stamp_and_transmit r = some (t1, some p)) :
    p.params = { t.params_of r with sequence := some t._request_seq } := by
  obtain ⟨c, _, _, h2⟩ := stamp_and_transmit_spec h
  simp only [Option.some.injEq] at h2
  subst h2
  rfl

/-- C11, as stated, fails: a request without end-of-stream flag and without chunks is
handed to the transport, as a payload with zero chunks and `eos = false`. -/
theorem empty_packet_counterexample :
    ∃ s1 p,
      (sample_buffer.make_params 100 (sample_params dest_a false 0))._send_rpc
        (sample_request dest_a 100) = some (s1, some p) ∧
      p.params.chunks_size = 0 ∧ p.params.eos = false :=
  ⟨_, _, rfl, rfl, rfl⟩

/-- C11, amended. The method `_send_rpc` makes no empty packet that is not the last
one: whenever it hands a payload to the transport for a request that has the
end-of-stream flag or carries a chunk, the payload carries a chunk or the end-of-stream
flag; a payload with neither is the payload of a request that came with neither, sent
with its chunks and flag as they came. -/
theorem no_empty_packet_made (s s1 : SinkBuffer) (r : TransmitChunkInfo) (p : TransmitCall)
    (h : s._send_rpc r = some (s1, some p)) :
    (((s.params_of r).eos = true ∨ 0 < (s.params_of r).chunks_size) →
      (0 < p.params.chunks_size ∨ p.params.eos = true)) ∧
    ((p.params.chunks_size = 0 ∧ p.params.eos = false) →
      ((s.params_of r).chunks_size = 0 ∧ (s.params_of r).eos = false)) ∧
    p.params.chunks = (s.params_of r).chunks := by
  rw [send_rpc_cases] at h
  by_cases he : (s.params_of r).eos = true
  · simp only [he, if_true] at h
    split at h
    · split at h
      · simp at h
      · rename_i hpos hsize
        have hp := stamp_and_transmit_payload h
        have h1 : p.params.chunks = (s.params_of r).chunks := by
          rw [hp]
          simp [params_of, deref, Assoc.lookup_set_self]
        simp only [PTransmitChunkParams.chunks_size] at hsize ⊢
        refine ⟨fun _ => Or.inl ?_, ?_, h1⟩
        · rw [h1]; omega
        · rintro ⟨h3, _⟩
          rw [h1] at h3
          exact absurd h3 hsize
    · have hp := stamp_and_transmit_payload h
      have h1 : p.params.chunks = (s.params_of r).chunks := by
        rw [hp]
        rfl
      have h2 : p.params.eos = (s.params_of r).eos := by
        rw [hp]
        rfl
      refine ⟨fun _ => Or.inr (by rw [h2]; exact he), ?_, h1⟩
      rintro ⟨_, h3⟩
      rw [h2, he] at h3
      cases h3
  · simp only [he] at h
    have hp := stamp_and_transmit_payload h
    have h1 : p.params.chunks = (s.params_of r).chunks := by
      rw [hp]
    have h2 : p.params.eos = (s.params_of r).eos := by
      rw [hp]
    simp only [PTransmitChunkParams.chunks_size]
    refine ⟨?_, ?_, h1⟩
    · rintro (h3 | h3)
      · exact absurd h3 he
      · left; rw [h1]; exact h3
    · rintro ⟨h3, h4⟩
      rw [h1] at h3
      rw [h2] at h4
      exact ⟨h3, h4⟩

theorem no_empty_packet_made_witness :
    ∃ s1 p, eos_state._send_rpc (sample_request dest_a 100) = some (s1, some p) ∧
      (eos_state.params_of (sample_request dest_a 100)).eos = true ∧
      p.params.eos = false ∧
      (0 < p.params.chunks_size ∨ p.params.eos = true) ∧
      p.params.chunks = (eos_state.params_of (sample_request dest_a 100)).chunks :=
  ⟨_, _, rfl, rfl, rfl,
    (no_empty_packet_made eos_state _ (sample_request dest_a 100) _ (by rfl)).1 (Or.inl rfl),
    (no_empty_packet_made eos_state _ (sample_request dest_a 100) _ (by rfl)).2.2⟩

/-- C14, as stated, fails: after a failed RPC the sink buffer is cancelled and
`is_finished` returns true while a request is still queued. -/
theorem finished_while_queued_counterexample :
    ∃ s log,
      sample_buffer.run []
        [Action.make_params 100 (sample_params dest_a false 1),
         Action.make_params 101 (sample_params dest_a true 0),
         Action.add_request (sample_request dest_a 100),
         Action.add_request (sample_request dest_a 101),
         Action.process_buffer dest_a, Action.rpc_failed dest_a] = some (s, log) ∧
      (∃ e ∈ s._buffers, e.2 ≠ []) ∧ s.is_finished = true :=
  ⟨_, _, rfl, ⟨(dest_a, [sample_request dest_a 101]), by decide, by decide⟩, by decide⟩

/-- C14, amended. In every state whose cancellation flag is not set, `is_finished`
returns false when some queue is not empty or some RPC is in flight (a closure has
one, or the in-flight counter is positive); in every state whose cancellation flag
is set it returns true. -/
theorem not_finished_while_busy (s : SinkBuffer) :
    (s._is_cancelled = false →
      ((∃ e ∈ s._buffers, e.2 ≠ []) ∨ (∃ e ∈ s._closures, e.2.has_in_flight_rpc = true) ∨
        0 < s._in_flight_rpc_num) →
      s.is_finished = false) ∧
    (s._is_cancelled = true → s.is_finished = true) := by
  constructor
  · intro hc hbusy
    unfold is_finished
    simp only [hc, Bool.false_eq_true, if_false]
    split_ifs with h1 h2 h3
    · rfl
    · rfl
    · rfl
    · exfalso
      rcases hbusy with ⟨e, he, hne⟩ | ⟨e, he, hfl⟩ | hpos
      · apply h3
        refine List.any_eq_true.mpr ⟨e, he, ?_⟩
        cases hq : e.2 with
        | nil => exact absurd hq hne
        | cons x xs => rfl
      · exact h2 (List.any_eq_true.mpr ⟨e, he, hfl⟩)
      · exact h1 hpos
  · intro hc
    simp [is_finished, hc]

theorem not_finished_while_busy_witness :
    sample_state._is_cancelled = false ∧
    (∃ e ∈ sample_state._closures, e.2.has_in_flight_rpc = true) ∧
    sample_state.is_finished = false :=
  ⟨by decide, ⟨(dest_b, { refs := 2 }), by decide, by decide⟩,
    (not_finished_while_busy sample_state).1 (by decide)
      (Or.inr (Or.inl ⟨(dest_b, { refs := 2 }), by decide, by decide⟩))⟩

/-- What `_send_rpc` does with a request whose object has the end-of-stream flag, by the
sinker count after the decrement and the chunk count. -/
theorem send_rpc_of_eos (s : SinkBuffer) (r : TransmitChunkInfo)
    (c : CallBackClosure) (heos : (s.params_of r).eos = true)
    (hc : Assoc.lookup r.fragment_instance_id s._closures = some c) :
    (0 < size_dec (sinkers s r.fragment_instance_id) → (s.params_of r).chunks_size = 0 →
      ∃ s1, s._send_rpc r = some (s1, none) ∧
        sinkers s1 r.fragment_instance_id = size_dec (sinkers s r.fragment_instance_id) ∧
        s1.heap = s.heap) ∧
    (0 < size_dec (sinkers s r.fragment_instance_id) → (s.params_of r).chunks_size ≠ 0 →
      ∃ s1 p, s._send_rpc r = some (s1, some p) ∧
        p.params = { s.params_of r with eos := false, sequence := some s._request_seq } ∧
        p.fragment_instance_id = r.fragment_instance_id ∧
        p.request_attachment = r.attachment ∧
        sinkers s1 r.fragment_instance_id = size_dec (sinkers s r.fragment_instance_id) ∧
        s1.params_of r = p.params ∧
        s1._closures = Assoc.set r.fragment_instance_id c.ref s._closures ∧
        ∀ q, q ≠ r.params → s1.deref q = s.deref q) ∧
    (size_dec (sinkers s r.fragment_instance_id) = 0 →
      ∃ s1 p, s._send_rpc r = some (s1, some p) ∧
        p.params = { s.params_of r with sequence := some s._request_seq } ∧
        p.params.eos = true ∧
        p.fragment_instance_id = r.fragment_instance_id ∧
        p.request_attachment = r.attachment ∧
        sinkers s1 r.fragment_instance_id = 0 ∧
        s1.params_of r = p.params) := by
  refine ⟨?_, ?_, ?_⟩
  · intro hpos hsize
    rw [send_rpc_cases]
    simp only [heos, hpos, hsize, if_true]
    exact ⟨_, rfl, by simp [sinkers, Assoc.lookup_set_self], rfl⟩
  · intro hpos hsize
    rw [send_rpc_cases]
    simp only [heos, hpos, hsize, if_true, if_false, stamp_and_transmit, hc]
    refine ⟨_, _, rfl, ?_, rfl, rfl, ?_, ?_, rfl, ?_⟩
    · simp [params_of, deref, Assoc.lookup_set_self]
    · simp [sinkers, Assoc.lookup_set_self]
    · simp [params_of, deref, Assoc.lookup_set_self]
    · intro q hq
      simp [deref, Assoc.lookup_set_ne _ _ hq]
  · intro hzero
    rw [send_rpc_cases, if_pos heos, if_neg (by omega)]
    simp only [hzero, stamp_and_transmit, hc]
    refine ⟨_, _, rfl, rfl, heos, rfl, rfl, ?_, ?_⟩
    · simp [sinkers, Assoc.lookup_set_self]
    · simp [params_of, deref, Assoc.lookup_set_self]

/-- C15. Non-final end of stream: for a request with the end-of-stream flag whose
destination has a closure, when the sinker count is still positive after the decrement
the request is dropped if it has no chunk and is otherwise handed to the transport
with its chunks and the flag cleared; when the decrement reaches zero it is handed
over as it is, with the flag set.  With two sinkers and two such requests that carry
chunks, each with an object of its own, in whatever order, two payloads are sent, the
first without and the second with the flag. -/
theorem non_final_end_of_stream (s : SinkBuffer) (r : TransmitChunkInfo)
    (c : CallBackClosure) (heos : (s.params_of r).eos = true)
    (hc : Assoc.lookup r.fragment_instance_id s._closures = some c) :
    (0 < size_dec (sinkers s r.fragment_instance_id) → (s.params_of r).chunks_size = 0 →
      ∃ s1, s._send_rpc r = some (s1, none) ∧
        sinkers s1 r.fragment_instance_id = size_dec (sinkers s r.fragment_instance_id)) ∧
    (0 < size_dec (sinkers s r.fragment_instance_id) → (s.params_of r).chunks_size ≠ 0 →
      ∃ s1 p, s._send_rpc r = some (s1, some p) ∧
        p.params = { s.params_of r with eos := false, sequence := some s._request_seq } ∧
        p.fragment_instance_id = r.fragment_instance_id ∧
        p.request_attachment = r.attachment ∧
        sinkers s1 r.fragment_instance_id = size_dec (sinkers s r.fragment_instance_id) ∧
        s1.params_of r = p.params) ∧
    (size_dec (sinkers s r.fragment_instance_id) = 0 →
      ∃ s1 p, s._send_rpc r = some (s1, some p) ∧
        p.params = { s.params_of r with sequence := some s._request_seq } ∧
        p.params.eos = true ∧
        p.fragment_instance_id = r.fragment_instance_id ∧
        p.request_attachment = r.attachment ∧
        sinkers s1 r.fragment_instance_id = 0 ∧
        s1.params_of r = p.params) ∧
    (∀ r2 : TransmitChunkInfo, r2.params ≠ r.params → (s.params_of r2).eos = true →
      r2.fragment_instance_id = r.fragment_instance_id →
      (s.params_of r).chunks_size ≠ 0 → (s.params_of r2).chunks_size ≠ 0 →
      sinkers s r.fragment_instance_id = 2 →
      ∃ s2 p1 p2, s.send_all [r, r2] = some (s2, [some p1, some p2]) ∧
        p1.params.eos = false ∧ p1.params.chunks = (s.params_of r).chunks ∧
        p2.params.eos = true ∧ p2.params.chunks = (s.params_of r2).chunks) := by
  obtain ⟨h1, h2, h3⟩ := send_rpc_of_eos s r c heos hc
  refine ⟨?_, ?_, h3, ?_⟩
  · intro hpos hsize
    obtain ⟨s1, ha, hb, _⟩ := h1 hpos hsize
    exact ⟨s1, ha, hb⟩
  · intro hpos hsize
    obtain ⟨s1, p, ha, hb, hc1, hd, he, hf, _⟩ := h2 hpos hsize
    exact ⟨s1, p, ha, hb, hc1, hd, he, hf⟩
  · intro r2 hne heos2 hfid hsize hsize2 htwo
    have hd2 : size_dec 2 = 1 := by decide
    have hd1 : size_dec 1 = 0 := by decide
    obtain ⟨s1, p1, ha, hb, _, _, he, _, hcl, hframe⟩ :=
      h2 (by rw [htwo, hd2]; decide) hsize
    have hp2 : s1.params_of r2 = s.params_of r2 := hframe _ hne
    have hc2 : Assoc.lookup r2.fragment_instance_id s1._closures = some c.ref := by
      rw [hcl, hfid]
      exact Assoc.lookup_set_self _ _ _
    have hs1 : size_dec (sinkers s1 r2.fragment_instance_id) = 0 := by
      rw [hfid, he, htwo, hd2, hd1]
    obtain ⟨s2, p2, ha2, hb2, hc3, _⟩ :=
      (send_rpc_of_eos s1 r2 c.ref (by rw [hp2]; exact heos2) hc2).2.2 hs1
    refine ⟨s2, p1, p2, ?_, ?_, ?_, hc3, ?_⟩
    · simp [send_all, ha, ha2]
    · rw [hb]
    · rw [hb]
    · rw [hb2, hp2]

theorem non_final_end_of_stream_witness :
    (∃ s2 p1 p2,
      two_eos_state.send_all [sample_request dest_a 100, sample_request dest_a 101] =
        some (s2, [some p1, some p2]) ∧
      p1.params.eos = false ∧
      p1.params.chunks = (two_eos_state.params_of (sample_request dest_a 100)).chunks ∧
      p2.params.eos = true ∧
      p2.params.chunks = (two_eos_state.params_of (sample_request dest_a 101)).chunks) ∧
    (∃ s2 p1 p2,
      two_eos_state.send_all [sample_request dest_a 101, sample_request dest_a 100] =
        some (s2, [some p1, some p2]) ∧
      p1.params.eos = false ∧
      p1.params.chunks = (two_eos_state.params_of (sample_request dest_a 101)).chunks ∧
      p2.params.eos = true ∧
      p2.params.chunks = (two_eos_state.params_of (sample_request dest_a 100)).chunks) :=
  ⟨(non_final_end_of_stream two_eos_state (sample_request dest_a 100) { refs := 1 } rfl
      (by decide)).2.2.2
      (sample_request dest_a 101) (by decide) rfl rfl (by decide) (by decide) (by decide),
   (non_final_end_of_stream two_eos_state (sample_request dest_a 101) { refs := 1 } rfl
      (by decide)).2.2.2
      (sample_request dest_a 100) (by decide) rfl rfl (by decide) (by decide) (by decide)⟩

/-! ## The maps built by the constructor -/

theorem lookup_eq_none_iff {K V : Type} [DecidableEq K] (k : K) (m : List (K × V)) :
    Assoc.lookup k m = none ↔ k ∉ Assoc.keys m := by
  induction m with
  | nil => simp [Assoc.lookup, Assoc.keys]
  | cons e m ih =>
    obtain ⟨k1, v1⟩ := e
    by_cases h1 : k1 = k
    · simp [Assoc.lookup, Assoc.keys, h1]
    · have h2 : ¬ k = k1 := fun h => h1 h.symm
      simp only [Assoc.lookup, h1, if_false, ih, Assoc.keys, List.map_cons, List.mem_cons, h2,
        false_or]

theorem keys_set_of_none {K V : Type} [DecidableEq K] (k : K) (v : V) (m : List (K × V))
    (h : Assoc.lookup k m = none) : Assoc.keys (Assoc.set k v m) = Assoc.keys m ++ [k] := by
  induction m with
  | nil => simp [Assoc.set, Assoc.keys]
  | cons e m ih =>
    obtain ⟨k1, v1⟩ := e
    by_cases h1 : k1 = k
    · simp [Assoc.lookup, h1] at h
    · simp only [Assoc.lookup, h1, if_false] at h
      have := ih h
      simp only [Assoc.keys] at this
      simp [Assoc.set, Assoc.keys, h1, this]

/-- The state of the constructor loop after the destinations `done`: the three maps
have the same keys, one for each id met, and the sinker count of an id is `n` times
the number of its entries, in `size_t` arithmetic. -/
theorem constructor_loop (n : Nat) (hn : n < 18446744073709551616)
    (rest : List TPlanFragmentDestination) :
    ∀ (done : List TPlanFragmentDestination) (s : SinkBuffer),
      (Assoc.keys s._closures = Assoc.keys s._num_sinkers_per_dest_instance ∧
        Assoc.keys s._buffers = Assoc.keys s._num_sinkers_per_dest_instance ∧
        (Assoc.keys s._num_sinkers_per_dest_instance).Nodup ∧
        (∀ d, d ∈ Assoc.keys s._num_sinkers_per_dest_instance ↔
          d ∈ done.map (fun e => e.fragment_instance_id)) ∧
        (∀ d, d ∈ done.map (fun e => e.fragment_instance_id) →
          Assoc.lookup d s._num_sinkers_per_dest_instance =
            some ((n * (done.map (fun e => e.fragment_instance_id)).count d)
              % 18446744073709551616))) →
      (Assoc.keys (rest.foldl (add_destination n) s)._closures =
          Assoc.keys (rest.foldl (add_destination n) s)._num_sinkers_per_dest_instance ∧
        Assoc.keys (rest.foldl (add_destination n) s)._buffers =
          Assoc.keys (rest.foldl (add_destination n) s)._num_sinkers_per_dest_instance ∧
        (Assoc.keys (rest.foldl (add_destination n) s)._num_sinkers_per_dest_instance).Nodup ∧
        (∀ d, d ∈ Assoc.keys (rest.foldl (add_destination n) s)._num_sinkers_per_dest_instance ↔
          d ∈ (done ++ rest).map (fun e => e.fragment_instance_id)) ∧
        (∀ d, d ∈ (done ++ rest).map (fun e => e.fragment_instance_id) →
          Assoc.lookup d (rest.foldl (add_destination n) s)._num_sinkers_per_dest_instance =
            some ((n * ((done ++ rest).map (fun e => e.fragment_instance_id)).count d)
              % 18446744073709551616))) := by
  induction rest with
  | nil =>
    intro done s h
    simpa using h
  | cons dest rest ih =>
    intro done s h
    obtain ⟨h1, h2, h3, h4, h5⟩ := h
    have hstep := ih (done ++ [dest]) (add_destination n s dest)
    simp only [List.append_assoc, List.singleton_append] at hstep
    simp only [List.foldl_cons]
    apply hstep
    unfold add_destination
    simp only
    cases hl : Assoc.lookup dest.fragment_instance_id s._num_sinkers_per_dest_instance with
    | some v =>
      simp only
      have hmem : dest.fragment_instance_id ∈ done.map (fun e => e.fragment_instance_id) := by
        rw [← h4]
        by_contra hne
        rw [← lookup_eq_none_iff, hl] at hne
        cases hne
      have hv := h5 _ hmem
      rw [hl] at hv
      simp only [Option.some.injEq] at hv
      have hk := Assoc.keys_set_of_lookup (size_add v n) s._num_sinkers_per_dest_instance hl
      rw [hk]
      refine ⟨h1, h2, h3, ?_, ?_⟩
      · intro d
        rw [h4 d]
        simp only [List.map_append, List.map_cons, List.map_nil, List.mem_append,
          List.mem_singleton]
        constructor
        · intro hd; exact Or.inl hd
        · rintro (hd | hd)
          · exact hd
          · rw [hd]; exact hmem
      · intro d hd
        simp only [List.map_append, List.map_cons, List.map_nil, List.count_append]
        by_cases hdd : d = dest.fragment_instance_id
        · subst hdd
          rw [Assoc.lookup_set_self]
          simp only [List.count_singleton_self, size_add, hv, Option.some.injEq]
          rw [Nat.mul_add, Nat.mul_one]
          omega
        · rw [Assoc.lookup_set_ne _ _ hdd]
          have hd' : d ∈ done.map (fun e => e.fragment_instance_id) := by
            simp only [List.map_append, List.map_cons, List.map_nil, List.mem_append,
              List.mem_singleton] at hd
            rcases hd with hd | hd
            · exact hd
            · exact absurd hd hdd
          rw [h5 d hd']
          have : List.count d [dest.fragment_instance_id] = 0 := by
            simp [List.count_singleton, Ne.symm hdd]
          rw [this, Nat.add_zero]
    | none =>
      simp only
      have hnot : dest.fragment_instance_id ∉ done.map (fun e => e.fragment_instance_id) := by
        rw [← h4, ← lookup_eq_none_iff]
        exact hl
      have hc : Assoc.lookup dest.fragment_instance_id s._closures = none := by
        rw [lookup_eq_none_iff, h1, ← lookup_eq_none_iff]
        exact hl
      have hb : Assoc.lookup dest.fragment_instance_id s._buffers = none := by
        rw [lookup_eq_none_iff, h2, ← lookup_eq_none_iff]
        exact hl
      rw [keys_set_of_none _ _ _ hl, keys_set_of_none _ _ _ hc, keys_set_of_none _ _ _ hb,
        h1, h2]
      refine ⟨rfl, rfl, ?_, ?_, ?_⟩
      · rw [List.nodup_append]
        refine ⟨h3, List.nodup_singleton _, ?_⟩
        intro a ha hb'
        simp only [List.mem_singleton] at hb'
        subst hb'
        exact ((lookup_eq_none_iff _ _).mp hl) ha
      · intro d
        simp only [List.map_append, List.map_cons, List.map_nil, List.mem_append,
          List.mem_singleton, h4 d]
      · intro d hd
        simp only [List.map_append, List.map_cons, List.map_nil, List.count_append]
        by_cases hdd : d = dest.fragment_instance_id
        · subst hdd
          rw [Assoc.lookup_set_self]
          simp only [List.count_singleton_self, List.count_eq_zero_of_not_mem hnot,
            Nat.zero_add, Nat.mul_one, Option.some.injEq]
          omega
        · rw [Assoc.lookup_set_ne _ _ hdd]
          have hd' : d ∈ done.map (fun e => e.fragment_instance_id) := by
            simp only [List.map_append, List.map_cons, List.map_nil, List.mem_append,
              List.mem_singleton] at hd
            rcases hd with hd | hd
            · exact hd
            · exact absurd hd hdd
          rw [h5 d hd']
          have : List.count d [dest.fragment_instance_id] = 0 := by
            simp [List.count_singleton, Ne.symm hdd]
          rw [this, Nat.add_zero]

/-- The maps of the constructed state. -/
theorem new_maps (dests : List TPlanFragmentDestination) (n : Nat)
    (hn : n < 18446744073709551616) :
    Assoc.keys (new dests n)._closures = Assoc.keys (new dests n)._num_sinkers_per_dest_instance ∧
    Assoc.keys (new dests n)._buffers = Assoc.keys (new dests n)._num_sinkers_per_dest_instance ∧
    (Assoc.keys (new dests n)._num_sinkers_per_dest_instance).Nodup ∧
    (∀ d, d ∈ Assoc.keys (new dests n)._num_sinkers_per_dest_instance ↔
      d ∈ dests.map (fun e => e.fragment_instance_id)) ∧
    (∀ d, d ∈ dests.map (fun e => e.fragment_instance_id) →
      Assoc.lookup d (new dests n)._num_sinkers_per_dest_instance =
        some ((n * (dests.map (fun e => e.fragment_instance_id)).count d)
          % 18446744073709551616)) := by
  have h := constructor_loop n hn dests [] empty
    ⟨rfl, rfl, List.nodup_nil, by simp [empty, Assoc.keys], by simp⟩
  simpa [new] using h

/-- The constructor creates one closure for each distinct destination id. -/
theorem new_closures_distinct (dests : List TPlanFragmentDestination) (n : Nat)
    (hn : n < 18446744073709551616) :
    (new dests n)._closures.length =
      (dests.map (fun e => e.fragment_instance_id)).dedup.length := by
  obtain ⟨h1, _, h3, h4, _⟩ := new_maps dests n hn
  have hlen : (new dests n)._closures.length = (Assoc.keys (new dests n)._closures).length := by
    simp [Assoc.keys]
  rw [hlen, h1]
  apply List.Perm.length_eq
  rw [List.perm_ext_iff_of_nodup h3 (List.nodup_dedup _)]
  intro d
  rw [h4 d, List.mem_dedup]

/-- C13. Construction folds duplicate destinations: the constructed state has one
queue, one closure and one sinker count for each distinct id of the destination list
and none for any other id; every queue is empty, no closure has an RPC in flight, and
the sinker count of an id is `n` times the number of its entries (in `size_t`
arithmetic, so the product itself whenever it is below `2^64`). -/
theorem construction_folds_duplicates (dests : List TPlanFragmentDestination) (n : Nat)
    (hn : n < 18446744073709551616) :
    (Assoc.keys (new dests n)._buffers).Nodup ∧
    (Assoc.keys (new dests n)._closures).Nodup ∧
    (Assoc.keys (new dests n)._num_sinkers_per_dest_instance).Nodup ∧
    (∀ d, d ∈ dests.map (fun e => e.fragment_instance_id) →
      Assoc.lookup d (new dests n)._buffers = some [] ∧
      Assoc.lookup d (new dests n)._closures = some { refs := 1 } ∧
      Assoc.lookup d (new dests n)._num_sinkers_per_dest_instance =
        some ((n * (dests.map (fun e => e.fragment_instance_id)).count d)
          % 18446744073709551616)) ∧
    (∀ d, d ∈ dests.map (fun e => e.fragment_instance_id) →
      n * (dests.map (fun e => e.fragment_instance_id)).count d < 18446744073709551616 →
      Assoc.lookup d (new dests n)._num_sinkers_per_dest_instance =
        some (n * (dests.map (fun e => e.fragment_instance_id)).count d)) ∧
    (∀ d, d ∉ dests.map (fun e => e.fragment_instance_id) →
      Assoc.lookup d (new dests n)._buffers = none ∧
      Assoc.lookup d (new dests n)._closures = none ∧
      Assoc.lookup d (new dests n)._num_sinkers_per_dest_instance = none) ∧
    (∀ e ∈ (new dests n)._buffers, e.2 = []) := by
  obtain ⟨h1, h2, h3, h4, h5⟩ := new_maps dests n hn
  have hf := new_fresh dests n
  refine ⟨by rw [h2]; exact h3, by rw [h1]; exact h3, h3, ?_, ?_, ?_, hf.2.1⟩
  · intro d hd
    have hk := (h4 d).mpr hd
    refine ⟨?_, ?_, h5 d hd⟩
    · cases hq : Assoc.lookup d (new dests n)._buffers with
      | none =>
        rw [lookup_eq_none_iff, h2] at hq
        exact absurd hk hq
      | some q =>
        have := hf.2.1 _ (Assoc.mem_of_lookup hq)
        simp only at this
        rw [this]
    · cases hq : Assoc.lookup d (new dests n)._closures with
      | none =>
        rw [lookup_eq_none_iff, h1] at hq
        exact absurd hk hq
      | some c =>
        have := hf.1 _ (Assoc.mem_of_lookup hq)
        simp only at this
        cases c
        simp only at this
        rw [this]
  · intro d hd hlt
    rw [h5 d hd, Nat.mod_eq_of_lt hlt]
  · intro d hd
    have hk : d ∉ Assoc.keys (new dests n)._num_sinkers_per_dest_instance :=
      fun h => hd ((h4 d).mp h)
    refine ⟨?_, ?_, ?_⟩
    · rw [lookup_eq_none_iff, h2]; exact hk
    · rw [lookup_eq_none_iff, h1]; exact hk
    · rw [lookup_eq_none_iff]; exact hk

theorem construction_folds_duplicates_witness :
    Assoc.lookup dest_a
      (new [{ fragment_instance_id := dest_a }, { fragment_instance_id := dest_b },
        { fragment_instance_id := dest_a }] 3)._num_sinkers_per_dest_instance = some (3 * 2) ∧
    Assoc.lookup dest_a
      (new [{ fragment_instance_id := dest_a }, { fragment_instance_id := dest_b },
        { fragment_instance_id := dest_a }] 3)._buffers = some [] :=
  ⟨(construction_folds_duplicates
      [{ fragment_instance_id := dest_a }, { fragment_instance_id := dest_b },
        { fragment_instance_id := dest_a }] 3 (by decide)).2.2.2.2.1 dest_a (by decide)
      (by decide),
   ((construction_folds_duplicates
      [{ fragment_instance_id := dest_a }, { fragment_instance_id := dest_b },
        { fragment_instance_id := dest_a }] 3 (by decide)).2.2.2.1 dest_a (by decide)).1⟩

/-! ## Submissions and completions -/

/-- A step changes the number of submissions that have not completed by the call it
makes and the completion it is. -/
theorem step_outstanding {s s1 : SinkBuffer} {a : Action} {events : List Event}
    (h : s.step a = some (s1, events)) (hc : closures_ok s) :
    total_outstanding s1 + completions [a] =
      total_outstanding s + (transmitted events).length := by
  cases a with
  | make_params ptr v =>
    obtain ⟨h1, h2⟩ := step_make_params h
    subst h1 h2
    simp [make_params, total_outstanding, transmitted, completions, is_completion]
  | add_request r =>
    simp only [step, Option.some.injEq, Prod.mk.injEq] at h
    obtain ⟨h1, h2⟩ := h
    subst h1 h2
    have ht : transmitted [if s._is_finished = true then Event.discarded r
        else Event.enqueued r] = [] := by
      simp only [transmitted]
      split <;> simp
    rw [ht, add_request_state]
    split <;> simp [total_outstanding, completions, is_completion]
  | process_buffer key =>
    rcases step_process_buffer_spec h with ⟨h1, h2⟩ | ⟨front, rest, c, call, s2, h2, _, hcl, hfl, hs, h1⟩
    · subst h1 h2
      simp [transmitted, completions, is_completion]
    · subst h1 h2
      rcases send_rpc_spec hs with ⟨h3, h4, _⟩ | ⟨c', p, h3, hc2, h4, _⟩
      · subst h3
        simp [total_outstanding, h4, transmitted, completions, is_completion]
      · subst h3
        rw [hcl] at hc2
        cases hc2
        have hb : 1 ≤ c.refs ∧ c.refs ≤ 2 := hc _ (Assoc.mem_of_lookup hcl)
        have hsum := Assoc.sum_set CallBackClosure.outstanding c.ref s._closures hcl
        simp only [total_outstanding, h4, transmitted, completions, is_completion,
          List.filterMap_cons, List.filterMap_nil, List.length_singleton, List.filter_cons,
          List.filter_nil, List.length_nil]
        simp only [CallBackClosure.outstanding, CallBackClosure.ref] at hsum ⊢
        simp only [Bool.false_eq_true, if_false, List.length_nil]
        omega
  | rpc_success dest result =>
    obtain ⟨h2, c, hcl, hfl, h1⟩ := (step_completion_spec h).1 dest result rfl
    subst h1 h2
    have hb : 1 ≤ c.refs ∧ c.refs ≤ 2 := hc _ (Assoc.mem_of_lookup hcl)
    simp only [CallBackClosure.has_in_flight_rpc, decide_eq_true_eq] at hfl
    have hsum := Assoc.sum_set CallBackClosure.outstanding c.unref s._closures hcl
    simp only [total_outstanding, transmitted, completions, is_completion, List.filterMap_nil,
      List.length_nil, List.filter_cons, List.filter_nil, if_true, List.length_singleton]
    simp only [CallBackClosure.outstanding, CallBackClosure.unref] at hsum ⊢
    omega
  | rpc_failed dest =>
    obtain ⟨h2, c, hcl, hfl, h1⟩ := (step_completion_spec h).2 dest rfl
    subst h1 h2
    have hb : 1 ≤ c.refs ∧ c.refs ≤ 2 := hc _ (Assoc.mem_of_lookup hcl)
    simp only [CallBackClosure.has_in_flight_rpc, decide_eq_true_eq] at hfl
    have hsum := Assoc.sum_set CallBackClosure.outstanding c.unref s._closures hcl
    simp only [total_outstanding, transmitted, completions, is_completion, List.filterMap_nil,
      List.length_nil, List.filter_cons, List.filter_nil, if_true, List.length_singleton,
      failed_handler]
    simp only [CallBackClosure.outstanding, CallBackClosure.unref] at hsum ⊢
    omega
  | shutdown =>
    simp only [step, Option.some.injEq, Prod.mk.injEq] at h
    obtain ⟨h1, h2⟩ := h
    subst h1 h2
    simp [total_outstanding, shutdown, transmitted, completions, is_completion]

/-- Along a run the submissions that have not completed are the calls made less the
completions. -/
theorem run_outstanding {s s1 : SinkBuffer} {log log1 : List Event} {acts : List Action}
    (h : s.run log acts = some (s1, log1)) (hc : closures_ok s) :
    total_outstanding s1 + completions acts + (transmitted log).length =
      total_outstanding s + (transmitted log1).length := by
  induction acts generalizing s log with
  | nil =>
    simp only [run, Option.some.injEq, Prod.mk.injEq] at h
    obtain ⟨h1, h2⟩ := h
    subst h1 h2
    simp [completions]
  | cons a acts ih =>
    obtain ⟨s2, events, hs, hr⟩ := run_cons h
    have h1 := step_outstanding hs hc
    have h2 := ih hr (step_closures_ok hs hc)
    have h3 : transmitted (log ++ events) = transmitted log ++ transmitted events := by
      simp [transmitted, List.filterMap_append]
    have h4 : completions (a :: acts) = completions [a] + completions acts := by
      simp only [completions, List.filter_cons, List.filter_nil]
      split <;> simp [Nat.add_comm]
    rw [h3, List.length_append] at h2
    omega

/-- C16. In-flight counter invariant: in every state reached from the constructed
state, `_in_flight_rpc_num` is the number of calls made to the transport less the
number of completions, which is the number of submissions the closures still hold;
it is not negative and not above the number of distinct destinations, the test
`_in_flight_rpc_num > 0` decides `_in_flight_rpc_num != 0`, and a request that
`_send_rpc` drops leaves the counter as it is. -/
theorem in_flight_counter_invariant (dests : List TPlanFragmentDestination) (n : Nat)
    (acts : List Action) (s : SinkBuffer) (log : List Event)
    (hn : n < 18446744073709551616) (hdests : dests.length < 2147483648)
    (hrun : (new dests n).run [] acts = some (s, log)) :
    s._in_flight_rpc_num + (completions acts : Int) = ((transmitted log).length : Int) ∧
    s._in_flight_rpc_num = (total_outstanding s : Int) ∧
    0 ≤ s._in_flight_rpc_num ∧
    s._in_flight_rpc_num ≤
      ((dests.map (fun e => e.fragment_instance_id)).dedup.length : Int) ∧
    (0 < s._in_flight_rpc_num ↔ s._in_flight_rpc_num ≠ 0) ∧
    (∀ (r : TransmitChunkInfo) (s1 : SinkBuffer), s._send_rpc r = some (s1, none) →
      s1._in_flight_rpc_num = s._in_flight_rpc_num) := by
  have hf := new_fresh dests n
  have hl := new_closures_length dests n
  obtain ⟨h1, h2, h3⟩ := run_counter_ok hrun (by omega) (fresh_closures_ok hf)
    (fresh_counter_ok hf)
  have h4 := run_outstanding hrun (fresh_closures_ok hf)
  have h5 : total_outstanding (new dests n) = 0 := by
    have := fresh_counter_ok hf
    unfold counter_ok at this
    rw [hf.2.2.2.1] at this
    omega
  have h6 := total_outstanding_le h2
  have h7 := new_closures_distinct dests n hn
  have h8 : (transmitted ([] : List Event)).length = 0 := by simp [transmitted]
  unfold counter_ok at h1
  refine ⟨by omega, h1, by omega, by omega, by omega, ?_⟩
  intro r s1 hs
  rcases send_rpc_spec hs with ⟨_, _, _, h9, _⟩ | ⟨c, p, h9, _⟩
  · exact h9
  · simp at h9

theorem in_flight_counter_invariant_witness :
    ∃ s log, sample_buffer.run [] sample_actions = some (s, log) ∧
      s._in_flight_rpc_num + (completions sample_actions : Int) =
        ((transmitted log).length : Int) ∧
      s._in_flight_rpc_num = (total_outstanding s : Int) ∧
      0 ≤ s._in_flight_rpc_num ∧
      s._in_flight_rpc_num ≤
        ((sample_destinations.map (fun e => e.fragment_instance_id)).dedup.length : Int) ∧
      (0 < s._in_flight_rpc_num ↔ s._in_flight_rpc_num ≠ 0) ∧
      (∀ (r : TransmitChunkInfo) (s1 : SinkBuffer), s._send_rpc r = some (s1, none) →
        s1._in_flight_rpc_num = s._in_flight_rpc_num) :=
  ⟨_, _, rfl,
    in_flight_counter_invariant sample_destinations 1 sample_actions _ _ (by decide)
      (by decide) rfl⟩

/-- C18. A dropped request consumes no sequence number: `_send_rpc` drops a request
only when it has the end-of-stream flag, no chunk and a sinker count that is still
positive after the decrement, and then leaves `_request_seq` unchanged; so along every
run from the constructed state, while the counter stays in the range of `int64_t`, the
calls made to the transport, whatever their destinations, carry the numbers
0, 1, 2, ... in the order in which they are made, and `_request_seq` is the number
of calls made. -/
theorem dropped_request_keeps_sequence (dests : List TPlanFragmentDestination) (n : Nat)
    (acts : List Action) (s : SinkBuffer) (log : List Event)
    (hlen : (acts.length : Int) < 9223372036854775808)
    (hrun : (new dests n).run [] acts = some (s, log)) :
    (∀ (r : TransmitChunkInfo) (s1 : SinkBuffer), s._send_rpc r = some (s1, none) →
      s1._request_seq = s._request_seq ∧ (s.params_of r).eos = true ∧
      (s.params_of r).chunks_size = 0 ∧
      0 < size_dec (sinkers s r.fragment_instance_id)) ∧
    s._request_seq = ((transmitted log).length : Int) ∧
    (∀ (i : Nat) (call : TransmitCall), (transmitted log)[i]? = some call →
      call.params.sequence = some (i : Int)) ∧
    (∀ (i : Nat), i < (transmitted log).length →
      ∃ call, (transmitted log)[i]? = some call ∧ call.params.sequence = some (i : Int)) := by
  have hq := run_seq_ok hrun (by simpa [transmitted] using hlen) (fresh_seq_ok (new_fresh dests n))
  refine ⟨?_, hq.1, hq.2, ?_⟩
  · intro r s1 hs
    have hseq : s1._request_seq = s._request_seq := by
      rcases send_rpc_spec hs with ⟨_, _, h9, _⟩ | ⟨c, p, h9, _⟩
      · exact h9
      · simp at h9
    refine ⟨hseq, ?_⟩
    rw [send_rpc_cases] at hs
    have hnone : ∀ (t t1 : SinkBuffer) (q : TransmitChunkInfo),
        t.stamp_and_transmit q ≠ some (t1, none) := by
      intro t t1 q hq'
      obtain ⟨_, _, _, h2⟩ := stamp_and_transmit_spec hq'
      simp at h2
    by_cases he : (s.params_of r).eos = true
    · rw [if_pos he] at hs
      split at hs
      · rename_i hpos
        split at hs
        · rename_i hsize
          exact ⟨he, hsize, hpos⟩
        · exact absurd hs (hnone _ _ _)
      · exact absurd hs (hnone _ _ _)
    · rw [if_neg he] at hs
      exact absurd hs (hnone _ _ _)
  · intro i hi
    have hget : (transmitted log)[i]? = some ((transmitted log)[i]) :=
      List.getElem?_eq_getElem hi
    exact ⟨_, hget, hq.2 i _ hget⟩

theorem dropped_request_keeps_sequence_witness :
    ∃ s log s1, (new sample_destinations 3).run [] drop_actions = some (s, log) ∧
      log[4]? = some (Event.picked (sample_request dest_a 100) none) ∧
      (transmitted log).map (fun call => call.params.sequence) = [some 0, some 1] ∧
      s._request_seq = ((transmitted log).length : Int) ∧
      (∀ (i : Nat) (call : TransmitCall), (transmitted log)[i]? = some call →
        call.params.sequence = some (i : Int)) ∧
      s._send_rpc (sample_request dest_a 103) = some (s1, none) ∧
      (s1._request_seq = s._request_seq ∧
        (s.params_of (sample_request dest_a 103)).eos = true ∧
        (s.params_of (sample_request dest_a 103)).chunks_size = 0 ∧
        0 < size_dec (sinkers s dest_a)) :=
  ⟨_, _, _, rfl, rfl, rfl,
    (dropped_request_keeps_sequence sample_destinations 3 drop_actions _ _ (by decide) rfl).2.1,
    (dropped_request_keeps_sequence sample_destinations 3 drop_actions _ _ (by decide)
      rfl).2.2.1,
    rfl,
    (dropped_request_keeps_sequence sample_destinations 3 drop_actions _ _ (by decide) rfl).1
      (sample_request dest_a 103) _ rfl⟩

/-! ## End of stream and what follows it -/

/-- C12. The code does not keep the end of stream last: with one sinker for `dest_a`,
an end-of-stream request followed by a data request in the queue of `dest_a` is handed
to the transport as the payload with the flag, numbered 0, followed by the data payload,
numbered 1, for the same destination. -/
theorem payload_after_end_of_stream :
    ∃ s log p1 p2,
      sample_buffer.run [] eos_then_data_actions = some (s, log) ∧
      sinkers sample_buffer dest_a = 1 ∧
      transmitted log = [p1, p2] ∧
      p1.fragment_instance_id = dest_a ∧ p1.params.eos = true ∧
      p1.params.sequence = some 0 ∧
      p2.fragment_instance_id = dest_a ∧ p2.params.eos = false ∧
      p2.params.chunks_size = 1 ∧ p2.params.sequence = some 1 :=
  ⟨_, _, _, _, rfl, rfl, rfl, rfl, rfl, rfl, rfl, rfl, rfl, rfl⟩

/-! ## End of stream with a wrapping sinker count -/

theorem count_eos_le_length (s : SinkBuffer) (d : TUniqueId) (reqs : List TransmitChunkInfo) :
    count_eos s d reqs ≤ reqs.length := by
  unfold count_eos
  exact List.length_filter_le _ _

/-- C17. At most one end of stream under surplus or missing sinkers: an end-of-stream
request for a destination whose sinker count is zero wraps the count to `2^64 - 1`
and is treated as not the last one (dropped without chunks, sent with the flag cleared
otherwise); so for every sequence of requests with fewer than `2^64` end-of-stream
requests for each destination, at most one call with the flag is made for any
destination, and none for a destination whose sinker count is zero. -/
theorem at_most_one_end_of_stream (s : SinkBuffer) (reqs : List TransmitChunkInfo)
    (hsink : ∀ d, sinkers s d < 18446744073709551616)
    (hcount : ∀ d, count_eos s d reqs < 18446744073709551616)
    (hknown : ∀ r ∈ reqs, known s r.fragment_instance_id) :
    (∃ s1 calls, s.send_all reqs = some (s1, calls) ∧ calls.length = reqs.length ∧
      (∀ d, (calls.filter (is_eos_call d)).length ≤ 1) ∧
      (∀ d, sinkers s d = 0 → (calls.filter (is_eos_call d)).length = 0)) ∧
    (∀ (r : TransmitChunkInfo) (c : CallBackClosure), (s.params_of r).eos = true →
      sinkers s r.fragment_instance_id = 0 →
      Assoc.lookup r.fragment_instance_id s._closures = some c →
      ∃ s1 call, s._send_rpc r = some (s1, call) ∧
        sinkers s1 r.fragment_instance_id = 18446744073709551615 ∧
        ((s.params_of r).chunks_size = 0 → call = none) ∧
        ((s.params_of r).chunks_size ≠ 0 →
          ∃ p, call = some p ∧ p.params.eos = false ∧
            p.params.chunks = (s.params_of r).chunks)) := by
  have hread : ∀ d, eos_count d reqs (eos_as_read s reqs) < 18446744073709551616 :=
    fun d => Nat.lt_of_le_of_lt (eos_read_le d reqs s hknown) (hcount d)
  constructor
  · have htotal : ∃ s1 calls, s.send_all reqs = some (s1, calls) ∧
        calls.length = reqs.length := by
      obtain ⟨s1, calls, h1, h2, _⟩ := send_all_eos_wrap
        ({ hi := 0, lo := 0 } : TUniqueId) reqs s _ rfl (hsink _) (hread _) hknown
      exact ⟨s1, calls, h1, h2⟩
    obtain ⟨s1, calls, h1, h2⟩ := htotal
    refine ⟨s1, calls, h1, h2, ?_, ?_⟩
    · intro d
      obtain ⟨s1', calls', h3, _, h5⟩ :=
        send_all_eos_wrap d reqs s _ rfl (hsink d) (hread d) hknown
      rw [h1] at h3
      simp only [Option.some.injEq, Prod.mk.injEq] at h3
      rw [h3.2, h5]
      split <;> omega
    · intro d hd
      obtain ⟨s1', calls', h3, _, h5⟩ :=
        send_all_eos_wrap d reqs s _ rfl (hsink d) (hread d) hknown
      rw [h1] at h3
      simp only [Option.some.injEq, Prod.mk.injEq] at h3
      rw [h3.2, h5, hd]
      simp
  · intro r c heos hzero hc
    have hdec : size_dec (sinkers s r.fragment_instance_id) = 18446744073709551615 := by
      rw [hzero]
      decide
    have hpos : 0 < size_dec (sinkers s r.fragment_instance_id) := by
      rw [hdec]
      decide
    obtain ⟨h1, h2, _⟩ := send_rpc_of_eos s r c heos hc
    by_cases hsize : (s.params_of r).chunks_size = 0
    · obtain ⟨s1, ha, hb, _⟩ := h1 hpos hsize
      exact ⟨s1, none, ha, by rw [hb, hdec], fun _ => rfl, fun h => absurd hsize h⟩
    · obtain ⟨s1, p, ha, hb, _, _, he, _⟩ := h2 hpos hsize
      refine ⟨s1, some p, ha, by rw [he, hdec], fun h => absurd h hsize, fun _ => ?_⟩
      exact ⟨p, rfl, by rw [hb], by rw [hb]⟩

/-- The sinker counts read by `sinkers` are `size_t` values when the stored ones are. -/
theorem sinkers_lt_of_forall (s : SinkBuffer)
    (h : ∀ e ∈ s._num_sinkers_per_dest_instance, e.2 < 18446744073709551616) :
    ∀ d, sinkers s d < 18446744073709551616 := by
  intro d
  unfold sinkers
  cases hq : Assoc.lookup d s._num_sinkers_per_dest_instance with
  | none => simp
  | some v => exact h _ (Assoc.mem_of_lookup hq)

theorem at_most_one_end_of_stream_witness :
    (∃ s1 calls,
      surplus_state.send_all
        [sample_request dest_a 100, sample_request dest_a 101, sample_request dest_a 102] =
          some (s1, calls) ∧
      calls.length = 3 ∧
      count_eos surplus_state dest_a
        [sample_request dest_a 100, sample_request dest_a 101, sample_request dest_a 102] = 3 ∧
      sinkers surplus_state dest_a = 1 ∧
      (∀ d, (calls.filter (is_eos_call d)).length ≤ 1) ∧
      (∀ d, sinkers surplus_state d = 0 → (calls.filter (is_eos_call d)).length = 0)) ∧
    (∃ s1 calls, no_sinker_state.send_all [sample_request dest_a 100] = some (s1, calls) ∧
      calls.length = 1 ∧ (calls.filter (is_eos_call dest_a)).length = 0) ∧
    (∃ s1 call, no_sinker_state._send_rpc (sample_request dest_a 100) = some (s1, call) ∧
      sinkers s1 dest_a = 18446744073709551615 ∧
      ∃ p, call = some p ∧ p.params.eos = false ∧
        p.params.chunks = (no_sinker_state.params_of (sample_request dest_a 100)).chunks) :=
  ⟨by
    obtain ⟨s1, calls, h1, h2, h3, h4⟩ :=
      (at_most_one_end_of_stream surplus_state
        [sample_request dest_a 100, sample_request dest_a 101, sample_request dest_a 102]
        (sinkers_lt_of_forall _ (by decide))
        (fun d => Nat.lt_of_le_of_lt (count_eos_le_length _ d _) (by decide))
        (by
          intro r hr
          simp only [List.mem_cons, List.mem_singleton, List.not_mem_nil, or_false] at hr
          rcases hr with h | h | h <;> subst h <;> exact ⟨_, rfl⟩)).1
    exact ⟨s1, calls, h1, h2, by decide, by decide, h3, h4⟩,
   by
    obtain ⟨s1, calls, h1, h2, _, h4⟩ :=
      (at_most_one_end_of_stream no_sinker_state [sample_request dest_a 100]
        (sinkers_lt_of_forall _ (by decide))
        (fun d => Nat.lt_of_le_of_lt (count_eos_le_length _ d _) (by decide))
        (by
          intro r hr
          simp only [List.mem_singleton] at hr
          subst hr
          exact ⟨_, rfl⟩)).1
    exact ⟨s1, calls, h1, h2, h4 dest_a (by decide)⟩,
   by
    obtain ⟨s1, call, h1, h2, _, h4⟩ :=
      (at_most_one_end_of_stream no_sinker_state [sample_request dest_a 100]
        (sinkers_lt_of_forall _ (by decide))
        (fun d => Nat.lt_of_le_of_lt (count_eos_le_length _ d _) (by decide))
        (by
          intro r hr
          simp only [List.mem_singleton] at hr
          subst hr
          exact ⟨_, rfl⟩)).2 (sample_request dest_a 100) { refs := 1 } rfl (by decide)
        (by decide)
    exact ⟨s1, call, h1, h2, h4 (by decide)⟩⟩

end SinkBuffer

end StarRocks
